import Mathlib

/-!
Shallow embedding of the BoxAudit session core (src/js/data.js and the
session-operation script) for checking the specification's claims.

Strings are modelled as lists of characters. JavaScript string helpers
(toUpperCase, toLowerCase, trim) are modelled on the ASCII fragment the
program's regular expressions work over; parseInt on an all-digit string
and Number.prototype.toString are modelled exactly as base-10 numerals
(exact for every numeral below 2^53, the range in which JavaScript
arithmetic on these values is exact).
-/

namespace BoxAudit

/-- JavaScript whitespace as used by trim and by the regular-expression
class backslash-s, restricted to the ASCII range: tab, line feed,
vertical tab, form feed, carriage return and space. -/
def isSpaceJS (c : Char) : Bool :=
  (9 ≤ c.toNat && c.toNat ≤ 13) || c.toNat = 32

/-- The regular-expression digit class: the characters 0 through 9. -/
def isDigitChar (c : Char) : Bool :=
  48 ≤ c.toNat && c.toNat ≤ 57

/-- The regular-expression letter class A-Za-z. -/
def isAlphaChar (c : Char) : Bool :=
  (65 ≤ c.toNat && c.toNat ≤ 90) || (97 ≤ c.toNat && c.toNat ≤ 122)

/-- One character of JavaScript toUpperCase on the ASCII fragment. -/
def jsUpperChar (c : Char) : Char :=
  if 97 ≤ c.toNat && c.toNat ≤ 122 then Char.ofNat (c.toNat - 32) else c

/-- One character of JavaScript toLowerCase on the ASCII fragment. -/
def jsLowerChar (c : Char) : Char :=
  if 65 ≤ c.toNat && c.toNat ≤ 90 then Char.ofNat (c.toNat + 32) else c

/-- JavaScript String.prototype.toUpperCase on the ASCII fragment. -/
def jsUpper (s : List Char) : List Char := s.map jsUpperChar

/-- JavaScript String.prototype.toLowerCase on the ASCII fragment. -/
def jsLower (s : List Char) : List Char := s.map jsLowerChar

/-- JavaScript String.prototype.trim: remove leading and trailing
whitespace. -/
def jsTrim (s : List Char) : List Char :=
  ((s.dropWhile isSpaceJS).reverse.dropWhile isSpaceJS).reverse

/-- Value of an all-digit numeral, most significant digit first; this is
parseInt(s, 10) on a string the digit class matched. -/
def digitsToNat (l : List Char) : Nat :=
  l.foldl (fun a c => a * 10 + (c.toNat - 48)) 0

/-- The digit character for a value below ten. -/
def digitChar (n : Nat) : Char := Char.ofNat (48 + n)

/-- Structural worker for natToDigits; the fuel argument only bounds the
recursion depth and never runs out when it starts at the number itself. -/
def natToDigitsAux : Nat → Nat → List Char
  | 0, n => [digitChar n]
  | fuel + 1, n =>
    if n < 10 then [digitChar n]
    else natToDigitsAux fuel (n / 10) ++ [digitChar (n % 10)]

/-- Base-10 numeral of a natural number, as Number.prototype.toString
produces for the exactly-representable range. -/
def natToDigits (n : Nat) : List Char := natToDigitsAux n n

/-- String.prototype.padStart(3, zero): left-pad a numeral to at least
three characters with the digit zero. -/
def pad3 (l : List Char) : List Char :=
  List.replicate (3 - l.length) '0' ++ l

/-- Case-insensitive literal prefix of a regular expression with the i
flag: consume the pattern word (given upper-case) from the input,
returning the rest of the input on success. -/
def dropCIPre : List Char → List Char → Option (List Char)
  | [], l => some l
  | _ :: _, [] => none
  | p :: ps, c :: cs => if jsUpperChar c = p then dropCIPre ps cs else none

/-- The tail common to both shelf regular expressions: optional
whitespace, then a non-empty digit run, then a letter run, then end of
string.  Returns the digit run and the letter run. -/
def matchNumLet (l : List Char) : Option (List Char × List Char) :=
  let l1 := l.dropWhile isSpaceJS
  let d := l1.takeWhile isDigitChar
  let r := l1.dropWhile isDigitChar
  if d = [] then none
  else
    let a := r.takeWhile isAlphaChar
    if r.dropWhile isAlphaChar = [] then some (d, a) else none

/-- The anchored SHELF pattern of normalizeBoxNumber and
normalizeShelfLocation. -/
def shelfMatchFull (l : List Char) : Option (List Char × List Char) :=
  (dropCIPre ("SHELF".toList) l).bind matchNumLet

/-- The anchored shorthand S pattern of normalizeBoxNumber and
normalizeShelfLocation. -/
def sMatchFull (l : List Char) : Option (List Char × List Char) :=
  (dropCIPre ("S".toList) l).bind matchNumLet

/-- The unanchored digit-run pattern: the first maximal run of digits
anywhere in the text, as the digit-class regular expression matches it. -/
def firstDigitRun (l : List Char) : Option (List Char) :=
  match l.dropWhile (fun c => !isDigitChar c) with
  | [] => none
  | c :: rest => some ((c :: rest).takeWhile isDigitChar)

/-- The canonical shelf key built from a matched digit run and letter
run. -/
def shelfKey (d a : List Char) : List Char := ("SHELF ".toList) ++ d ++ a

/-- normalizeBoxNumber from src/js/data.js: falsy input yields no
result; otherwise upper-case and trim, try the anchored SHELF pattern,
then the anchored S pattern, then the first digit run (parsed and
re-printed zero-padded to three digits after BOX), and finally fall back
to the upper-cased trimmed text itself. -/
def normalizeBoxNumber (boxNumber : List Char) : Option (List Char) :=
  if boxNumber = [] then none
  else
    let upper := jsTrim (jsUpper boxNumber)
    match shelfMatchFull upper with
    | some (d, a) => some (shelfKey d a)
    | none =>
      match sMatchFull upper with
      | some (d, a) => some (shelfKey d a)
      | none =>
        match firstDigitRun upper with
        | some ds => some (("BOX".toList) ++ pad3 (natToDigits (digitsToNat ds)))
        | none => some upper

/-- normalizeShelfLocation from src/js/data.js: like the shelf half of
normalizeBoxNumber but with no box or fallback branch; fails on
anything that is not a shelf. -/
def normalizeShelfLocation (value : List Char) : Option (List Char) :=
  if value = [] then none
  else
    let upper := jsTrim (jsUpper value)
    match shelfMatchFull upper with
    | some (d, a) => some (shelfKey d a)
    | none =>
      match sMatchFull upper with
      | some (d, a) => some (shelfKey d a)
      | none => none

/-- Result of parseQuantity. -/
structure ParsedQty where
  name : List Char
  qty : Nat
  deriving DecidableEq

/-- The trailing x-quantity pattern of parseQuantity (whitespace, then x
or X, then digits, then optional whitespace, anchored at the end),
matched against the already-trimmed name.  Returns the text before the
match and the digit run. -/
def matchXSuffix (l : List Char) : Option (List Char × List Char) :=
  let r := l.reverse
  let ds := r.takeWhile isDigitChar
  match r.dropWhile isDigitChar with
  | c :: r2 =>
    if ds = [] then none
    else if c = 'x' || c = 'X' then
      let sp := r2.takeWhile isSpaceJS
      if sp = [] then none else some ((r2.dropWhile isSpaceJS).reverse, ds.reverse)
    else none
  | [] => none

/-- The trailing parenthesis-quantity pattern of parseQuantity (optional
whitespace, an open parenthesis, digits, a close parenthesis, optional
whitespace, anchored at the end), matched against the already-trimmed
name.  Returns the text before the match and the digit run. -/
def matchParenSuffix (l : List Char) : Option (List Char × List Char) :=
  match l.reverse with
  | ')' :: r1 =>
    let ds := r1.takeWhile isDigitChar
    if ds = [] then none
    else
      match r1.dropWhile isDigitChar with
      | '(' :: r3 => some ((r3.dropWhile isSpaceJS).reverse, ds.reverse)
      | _ => none
  | _ => none

/-- parseQuantity from src/js/data.js: falsy input comes straight back
with quantity one; otherwise the trimmed name is checked against the
trailing x pattern and then the trailing parenthesis pattern; on a match
the quantity is the parsed digits (one when they parse to zero) and the
name is the text with the suffix stripped and trimmed, falling back to
the original input when stripping leaves nothing; with no match the
trimmed input comes back with quantity one (again falling back to the
original input when the trimmed text is empty). -/
def parseQuantity (itemName : List Char) : ParsedQty :=
  if itemName = [] then ⟨itemName, 1⟩
  else
    let name := jsTrim itemName
    match matchXSuffix name with
    | some (pre, ds) =>
      let q := digitsToNat ds
      let q := if q = 0 then 1 else q
      let n := jsTrim pre
      ⟨if n = [] then itemName else n, if q = 0 then 1 else q⟩
    | none =>
      match matchParenSuffix name with
      | some (pre, ds) =>
        let q := digitsToNat ds
        let q := if q = 0 then 1 else q
        let n := jsTrim pre
        ⟨if n = [] then itemName else n, if q = 0 then 1 else q⟩
      | none => ⟨if name = [] then itemName else name, 1⟩

/-- One inventory entry.  Identifiers are modelled as naturals, and the
timestamp strings carried by the program appear as character lists. -/
structure Item where
  id : Nat
  name : List Char
  qty : Nat
  addedAt : List Char
  isDuplicate : Bool
  tags : List (List Char)
  deriving DecidableEq

/-- One box or shelf record of the session. -/
structure BoxData where
  items : List Item
  completed : Bool
  completedAt : Option (List Char)
  secondaryLocation : Option (List Char)
  deriving DecidableEq

/-- The session root: the boxes object is modelled as an association
list in insertion order, keys unique, exactly as a JavaScript object
with string keys behaves under Object.entries. -/
structure Session where
  sessId : Option (List Char)
  startedAt : Option (List Char)
  boxes : List (List Char × BoxData)
  deriving DecidableEq

/-- The empty session used as an out-of-range default for history reads
that the program never performs. -/
def emptySession : Session := ⟨none, none, []⟩

/-- Property read on the boxes object: value at the first (only) entry
with the key. -/
def lookupBox : List (List Char × BoxData) → List Char → Option BoxData
  | [], _ => none
  | (k0, b0) :: rest, k => if k0 = k then some b0 else lookupBox rest k

/-- Property write on the boxes object when the key is present: replace
the value in place, preserving entry order. -/
def updateBox : List (List Char × BoxData) → List Char → BoxData → List (List Char × BoxData)
  | [], _, _ => []
  | (k0, b0) :: rest, k, b => if k0 = k then (k0, b) :: rest else (k0, b0) :: updateBox rest k b

/-- The delete operator on the boxes object. -/
def eraseBox : List (List Char × BoxData) → List Char → List (List Char × BoxData)
  | [], _ => []
  | (k0, b0) :: rest, k => if k0 = k then rest else (k0, b0) :: eraseBox rest k

/-- createEmptyBoxData from src/js/data.js. -/
def createEmptyBoxData : BoxData := ⟨[], false, none, none⟩

/-- ensureBoxDataShape from src/js/data.js, on values that already have
the right dynamic types (the only values the embedding builds): the
items, completed and secondaryLocation checks are no-ops there, and the
completedAt check replaces a falsy value (absent or the empty string)
with null. -/
def ensureBoxDataShape (b : BoxData) : BoxData :=
  { b with completedAt := match b.completedAt with | some [] => none | x => x }

/-- ensureBoxExists from src/js/data.js: create an empty record at the
key when absent (appending the key in insertion order), otherwise
repair the stored record in place. -/
def ensureBoxExists (s : Session) (k : List Char) : Session :=
  match lookupBox s.boxes k with
  | none => { s with boxes := s.boxes ++ [(k, createEmptyBoxData)] }
  | some b => { s with boxes := updateBox s.boxes k (ensureBoxDataShape b) }

/-- The case-insensitive trimmed form used by addItem to compare item
names: toLowerCase followed by trim. -/
def lowerTrim (l : List Char) : List Char := jsTrim (jsLower l)

/-- Truthiness of a possibly-absent string, as JavaScript conditions
evaluate it: present and non-empty. -/
def jsTruthyStr : Option (List Char) → Bool
  | some s => !s.isEmpty
  | none => false

/-- The JavaScript or-else idiom a-or-b on possibly-absent strings. -/
def jsOrStr (a b : Option (List Char)) : Option (List Char) :=
  if jsTruthyStr a then a else b

/-- The merge branch of addItem: find the first item whose lowered
trimmed name equals that of the parsed name, add the parsed quantity to
its quantity (an absent or zero quantity counting as one), refresh its
addedAt, and move it to the end of the sequence.  Returns nothing when
no item matches. -/
def addMerge (p : ParsedQty) (now : List Char) : List Item → Option (List Item)
  | [] => none
  | it :: rest =>
    if lowerTrim it.name = lowerTrim p.name then
      some (rest ++ [{ it with
        qty := (if it.qty = 0 then 1 else it.qty) + p.qty,
        addedAt := now }])
    else (addMerge p now rest).map (fun r => it :: r)

/-- addItem from the session-operation script: with no active location
it is a no-op; otherwise it ensures the active record exists, parses
the quantity, merges into a same-name item when one exists, and
otherwise appends a fresh item carrying the active tags. -/
def addItem (now : List Char) (newId : Nat) (tags : List (List Char))
    (s : Session) (currentBox : Option (List Char)) (itemName : List Char) : Session :=
  match currentBox with
  | none => s
  | some cb =>
    let s := ensureBoxExists s cb
    let b := (lookupBox s.boxes cb).getD createEmptyBoxData
    let p := parseQuantity itemName
    match addMerge p now b.items with
    | some items' => { s with boxes := updateBox s.boxes cb ({ b with items := items' }) }
    | none =>
      let fresh : Item := ⟨newId, p.name, p.qty, now, false, tags⟩
      { s with boxes := updateBox s.boxes cb ({ b with items := b.items ++ [fresh] }) }

/-- The key actually used to address the boxes object after
normalizeBoxNumber: a missing result indexes the object with null,
which JavaScript stringifies to the four-letter key null. -/
def normKey (k : List Char) : List Char :=
  (normalizeBoxNumber k).getD ("null".toList)

/-- Removal of the first item with the identifier; nothing when the
identifier is absent. -/
def removeFirstById : List Item → Nat → Option (List Item)
  | [], _ => none
  | it :: rest, itemId =>
    if it.id = itemId then some rest
    else (removeFirstById rest itemId).map (fun r => it :: r)

/-- deleteItem from the session-operation script: normalize the
location, silently return when the record or the item is missing,
otherwise remove the item; a record left empty is deleted from the
session unless it is the currently active location. -/
def deleteItem (s : Session) (currentBox : Option (List Char))
    (boxNumber : List Char) (itemId : Nat) : Session :=
  let k := normKey boxNumber
  match lookupBox s.boxes k with
  | none => s
  | some b =>
    match removeFirstById b.items itemId with
    | none => s
    | some items' =>
      if items' = [] ∧ currentBox ≠ some k then { s with boxes := eraseBox s.boxes k }
      else { s with boxes := updateBox s.boxes k ({ b with items := items' }) }

/-- In-place edit of the first item with the identifier; the list is
returned unchanged when the identifier is absent. -/
def editFirstById (f : Item → Item) : List Item → Nat → List Item
  | [], _ => []
  | it :: rest, itemId =>
    if it.id = itemId then f it :: rest else it :: editFirstById f rest itemId

/-- saveEditedItem from the session-operation script, for an edit state
addressing the given (already normalized) box key: re-parse the new
name, overwrite the item's name and quantity and clear its duplicate
flag.  A missing box record makes the original throw, modelled as no
result; a missing item leaves the session unchanged. -/
def saveEditedItem (s : Session) (boxNumber : List Char) (itemId : Nat)
    (newName : List Char) : Option Session :=
  match lookupBox s.boxes boxNumber with
  | none => none
  | some b =>
    let p := parseQuantity (jsTrim newName)
    let items' := editFirstById
      (fun it => { it with name := p.name, qty := p.qty, isDuplicate := false })
      b.items itemId
    some { s with boxes := updateBox s.boxes boxNumber ({ b with items := items' }) }

/-- toggleBoxComplete from the session-operation script: normalize the
key, silently return when the record is missing, otherwise flip
completed, stamping completedAt with the current time on completion and
clearing it on reopening. -/
def toggleBoxComplete (now : List Char) (s : Session) (boxNumber : List Char) : Session :=
  let k := normKey boxNumber
  match lookupBox s.boxes k with
  | none => s
  | some b =>
    let c := !b.completed
    let b' : BoxData := { b with completed := c, completedAt := if c then some now else none }
    { s with boxes := updateBox s.boxes k b' }

/-- setSecondaryLocation from the session-operation script: a no-op
without an active existing record, otherwise store the value, a falsy
value as null. -/
def setSecondaryLocation (s : Session) (currentBox : Option (List Char))
    (v : Option (List Char)) : Session :=
  match currentBox with
  | none => s
  | some cb =>
    match lookupBox s.boxes cb with
    | none => s
    | some b =>
      let b' : BoxData := { b with secondaryLocation := if jsTruthyStr v then v else none }
      { s with boxes := updateBox s.boxes cb b' }

/-- saveSecondaryLocation from the session-operation script: trim the
raw input; emptiness clears the secondary location, a valid shelf
stores its canonical form, and anything else reports a validation
failure (the returned flag) and leaves the session untouched. -/
def saveSecondaryLocation (s : Session) (currentBox : Option (List Char))
    (rawInput : List Char) : Session × Bool :=
  match currentBox with
  | none => (s, false)
  | some cb =>
    match lookupBox s.boxes cb with
    | none => (s, false)
    | some _ =>
      let rawValue := jsTrim rawInput
      if rawValue = [] then (setSecondaryLocation s currentBox none, false)
      else
        match normalizeShelfLocation rawValue with
        | none => (s, true)
        | some shelf => (setSecondaryLocation s currentBox (some shelf), false)

/-- The fields written when normalizeSessionBoxes places a record under
a key not seen before: a spread of the repaired record with each
optional field re-defaulted through the or-else idiom. -/
def freshEntry (b : BoxData) : BoxData :=
  { b with
    completed := b.completed || false,
    completedAt := jsOrStr b.completedAt none,
    secondaryLocation := jsOrStr b.secondaryLocation none }

/-- The merge performed by normalizeSessionBoxes when a second record
normalizes onto an existing key: concatenate item lists first-seen
first, or the completed flags keeping the first truthy completedAt in
encounter order, and keep the first truthy secondaryLocation. -/
def mergeBoxData (oldB newB : BoxData) : BoxData :=
  let oldB := ensureBoxDataShape oldB
  { items := oldB.items ++ newB.items,
    completed := if newB.completed || oldB.completed then true else oldB.completed,
    completedAt :=
      if newB.completed || oldB.completed then jsOrStr oldB.completedAt newB.completedAt
      else oldB.completedAt,
    secondaryLocation :=
      if jsTruthyStr newB.secondaryLocation && !jsTruthyStr oldB.secondaryLocation
      then newB.secondaryLocation else oldB.secondaryLocation }

/-- One step of the key-normalization loop: place a repaired record
under its normalized key, merging when the key was already produced. -/
def insertNorm : List (List Char × BoxData) → List Char → BoxData → List (List Char × BoxData)
  | [], k, b => [(k, freshEntry b)]
  | (k0, b0) :: rest, k, b =>
    if k0 = k then (k0, mergeBoxData b0 b) :: rest
    else (k0, b0) :: insertNorm rest k b

/-- The key-normalization pass of normalizeSessionBoxes over the boxes
object, in entry order. -/
def normalizeBoxesFold (l : List (List Char × BoxData)) : List (List Char × BoxData) :=
  l.foldl (fun acc kb => insertNorm acc (normKey kb.1) (ensureBoxDataShape kb.2)) []

/-- The per-item step of normalizeItemQuantities: an item with quantity
one (or a missing quantity, modelled as zero) whose name parses to a
larger quantity takes the parsed name and quantity; otherwise only a
missing quantity is defaulted to one. -/
def normItem (it : Item) : Item :=
  if it.qty = 1 ∨ it.qty = 0 then
    let p := parseQuantity it.name
    if p.qty > 1 then { it with name := p.name, qty := p.qty }
    else if it.qty = 0 then { it with qty := 1 } else it
  else it

/-- normalizeItemQuantities from src/js/data.js, as a pass over the
already re-keyed boxes object. -/
def normalizeItemQuantities (l : List (List Char × BoxData)) : List (List Char × BoxData) :=
  l.map (fun kb => (kb.1, { kb.2 with items := kb.2.items.map normItem }))

/-- normalizeSessionBoxes from src/js/data.js: re-key every record
through the normalizer with merge-on-collision, then normalize item
quantities. -/
def normalizeSessionBoxes (s : Session) : Session :=
  { s with boxes := normalizeItemQuantities (normalizeBoxesFold s.boxes) }

/-- The history manager state: the snapshot stack, the cursor (which
starts at minus one), and the live session. -/
structure HistState where
  hist : List Session
  idx : Int
  cur : Session
  deriving DecidableEq

/-- saveStateToHistory from src/js/data.js: truncate after the cursor,
append a copy of the live session, point the cursor at the new last
entry, and on exceeding the size cap evict the oldest entry and move
the cursor back one. -/
def saveStateToHistory (maxSize : Nat) (st : HistState) : HistState :=
  let h := st.hist.take (st.idx + 1).toNat ++ [st.cur]
  let i : Int := (h.length : Int) - 1
  if h.length > maxSize then ⟨h.drop 1, i - 1, st.cur⟩ else ⟨h, i, st.cur⟩

/-- undo from src/js/data.js: with the cursor past the first entry,
move it back and load that snapshot, reporting success; otherwise
report a no-op. -/
def undo (st : HistState) : HistState × Bool :=
  if 0 < st.idx then
    (⟨st.hist, st.idx - 1, st.hist.getD (st.idx - 1).toNat emptySession⟩, true)
  else (st, false)

/-- redo from src/js/data.js: with the cursor before the last entry,
move it forward and load that snapshot, reporting success; otherwise
report a no-op. -/
def redo (st : HistState) : HistState × Bool :=
  if st.idx < (st.hist.length : Int) - 1 then
    (⟨st.hist, st.idx + 1, st.hist.getD (st.idx + 1).toNat emptySession⟩, true)
  else (st, false)

/-- The initial history state of the module: empty stack, cursor minus
one. -/
def initHist (s0 : Session) : HistState := ⟨[], -1, s0⟩

/-- A sequence of record calls, the live session just before the i-th
call being the i-th list element. -/
def recordAll (maxSize : Nat) (ss : List Session) (st : HistState) : HistState :=
  ss.foldl (fun st s => saveStateToHistory maxSize { st with cur := s }) st

end BoxAudit

namespace BoxAudit

example : parseQuantity ("batteries x3".toList) = ⟨"batteries".toList, 3⟩ := by decide
example : parseQuantity ("widget (4)".toList) = ⟨"widget".toList, 4⟩ := by decide
example : parseQuantity ("pen".toList) = ⟨"pen".toList, 1⟩ := by decide
example : parseQuantity [] = ⟨[], 1⟩ := by decide
example : parseQuantity ("(3)".toList) = ⟨"(3)".toList, 3⟩ := by decide
example : parseQuantity ("pen x0".toList) = ⟨"pen".toList, 1⟩ := by decide
example : parseQuantity ("a  X03".toList) = ⟨"a".toList, 3⟩ := by decide
example : parseQuantity ("ax2".toList) = ⟨"ax2".toList, 1⟩ := by decide
example : parseQuantity ("widget (4) ".toList) = ⟨"widget".toList, 4⟩ := by decide
example : parseQuantity ("a x2 (3)".toList) = ⟨"a x2".toList, 3⟩ := by decide

example : normalizeBoxNumber ("shelf 2c".toList) = some ("SHELF 2C".toList) := by decide
example : normalizeBoxNumber ("SHELF2C".toList) = some ("SHELF 2C".toList) := by decide
example : normalizeBoxNumber ("s 2c".toList) = some ("SHELF 2C".toList) := by decide
example : normalizeBoxNumber ("S2C".toList) = some ("SHELF 2C".toList) := by decide
example : normalizeBoxNumber ("box42".toList) = some ("BOX042".toList) := by decide
example : normalizeBoxNumber ("B042".toList) = some ("BOX042".toList) := by decide
example : normalizeBoxNumber ("42".toList) = some ("BOX042".toList) := by decide
example : normalizeBoxNumber ("BOX 042".toList) = some ("BOX042".toList) := by decide
example : normalizeBoxNumber (" hello ".toList) = some ("HELLO".toList) := by decide
example : normalizeBoxNumber ("null".toList) = some ("NULL".toList) := by decide

end BoxAudit

namespace BoxAudit

lemma char_toNat_ofNat {n : Nat} (h : n < 55296) : (Char.ofNat n).toNat = n := by
  unfold Char.ofNat
  split
  · simp [Char.ofNatAux, Char.toNat, UInt32.toNat, BitVec.toNat_ofNatLt]
  · rename_i hv
    exact absurd (Or.inl h) hv

lemma char_toNat_lt (c : Char) : c.toNat < 1114112 := by
  have h := c.valid
  unfold Nat.isValidChar UInt32.isValidChar at h
  rcases h with h | h
  · simp only [Char.toNat]
    omega
  · simp only [Char.toNat]
    omega

lemma char_eq_of_toNat_eq {a b : Char} (h : a.toNat = b.toNat) : a = b := by
  apply Char.ext
  exact UInt32.toNat.inj h

lemma jsUpperChar_toNat (c : Char) :
    (jsUpperChar c).toNat =
      if 97 ≤ c.toNat ∧ c.toNat ≤ 122 then c.toNat - 32 else c.toNat := by
  unfold jsUpperChar
  by_cases h : 97 ≤ c.toNat ∧ c.toNat ≤ 122
  · have hb : (97 ≤ c.toNat && c.toNat ≤ 122) = true := by
      simp [decide_eq_true_eq, h.1, h.2]
    rw [if_pos hb, if_pos h, char_toNat_ofNat (by omega)]
  · have hb : (97 ≤ c.toNat && c.toNat ≤ 122) = true → False := by
      intro hb
      simp [Bool.and_eq_true, decide_eq_true_eq] at hb
      exact h hb
    rw [if_neg hb, if_neg h]

end BoxAudit

namespace BoxAudit

lemma isSpaceJS_iff {c : Char} : isSpaceJS c = true ↔ ((9 ≤ c.toNat ∧ c.toNat ≤ 13) ∨ c.toNat = 32) := by
  unfold isSpaceJS
  simp [Bool.or_eq_true, Bool.and_eq_true, decide_eq_true_eq]

lemma isDigitChar_iff {c : Char} : isDigitChar c = true ↔ (48 ≤ c.toNat ∧ c.toNat ≤ 57) := by
  unfold isDigitChar
  simp [Bool.and_eq_true, decide_eq_true_eq]

lemma isAlphaChar_iff {c : Char} :
    isAlphaChar c = true ↔ ((65 ≤ c.toNat ∧ c.toNat ≤ 90) ∨ (97 ≤ c.toNat ∧ c.toNat ≤ 122)) := by
  unfold isAlphaChar
  simp [Bool.or_eq_true, Bool.and_eq_true, decide_eq_true_eq]

lemma jsUpperChar_idem (c : Char) : jsUpperChar (jsUpperChar c) = jsUpperChar c := by
  apply char_eq_of_toNat_eq
  rw [jsUpperChar_toNat, jsUpperChar_toNat]
  by_cases h : 97 ≤ c.toNat ∧ c.toNat ≤ 122
  · simp only [if_pos h]
    rw [if_neg (by omega)]
  · simp only [if_neg h]

lemma isSpaceJS_jsUpperChar (c : Char) : isSpaceJS (jsUpperChar c) = isSpaceJS c := by
  rw [Bool.eq_iff_iff, isSpaceJS_iff, isSpaceJS_iff, jsUpperChar_toNat]
  split <;> omega

lemma isDigitChar_jsUpperChar (c : Char) : isDigitChar (jsUpperChar c) = isDigitChar c := by
  rw [Bool.eq_iff_iff, isDigitChar_iff, isDigitChar_iff, jsUpperChar_toNat]
  split <;> omega

lemma not_space_of_digit {c : Char} (h : isDigitChar c = true) : isSpaceJS c = false := by
  rw [isDigitChar_iff] at h
  rw [Bool.eq_false_iff, ne_eq, isSpaceJS_iff]
  omega

lemma not_space_of_alpha {c : Char} (h : isAlphaChar c = true) : isSpaceJS c = false := by
  rw [isAlphaChar_iff] at h
  rw [Bool.eq_false_iff, ne_eq, isSpaceJS_iff]
  omega

lemma not_digit_of_alpha {c : Char} (h : isAlphaChar c = true) : isDigitChar c = false := by
  rw [isAlphaChar_iff] at h
  rw [Bool.eq_false_iff, ne_eq, isDigitChar_iff]
  omega

lemma jsUpperChar_fixed_of_digit {c : Char} (h : isDigitChar c = true) :
    jsUpperChar c = c := by
  apply char_eq_of_toNat_eq
  rw [jsUpperChar_toNat, isDigitChar_iff] at *
  rw [if_neg (by omega)]

lemma jsUpperChar_fixed_of_space {c : Char} (h : isSpaceJS c = true) :
    jsUpperChar c = c := by
  apply char_eq_of_toNat_eq
  rw [jsUpperChar_toNat]
  unfold isSpaceJS at h
  simp only [Bool.or_eq_true, Bool.and_eq_true, decide_eq_true_eq] at h
  rw [if_neg (by omega)]

end BoxAudit

namespace BoxAudit

lemma map_id_of_fixed {f : Char → Char} : ∀ {l : List Char}, (∀ c ∈ l, f c = c) → l.map f = l
  | [], _ => rfl
  | c :: cs, h => by
    simp only [List.map_cons, List.cons.injEq]
    exact ⟨h c (List.mem_cons_self c cs), map_id_of_fixed fun x hx => h x (List.mem_cons_of_mem c hx)⟩

lemma takeWhile_append_of_all {p : Char → Bool} :
    ∀ {l1 l2 : List Char}, (∀ c ∈ l1, p c = true) →
      (l1 ++ l2).takeWhile p = l1 ++ l2.takeWhile p
  | [], l2, _ => rfl
  | c :: cs, l2, h => by
    simp only [List.cons_append, List.takeWhile_cons, h c (List.mem_cons_self c cs), if_true]
    exact congrArg (List.cons c)
      (takeWhile_append_of_all fun x hx => h x (List.mem_cons_of_mem c hx))

lemma dropWhile_append_of_all {p : Char → Bool} :
    ∀ {l1 l2 : List Char}, (∀ c ∈ l1, p c = true) →
      (l1 ++ l2).dropWhile p = l2.dropWhile p
  | [], l2, _ => rfl
  | c :: cs, l2, h => by
    simp only [List.cons_append, List.dropWhile_cons, h c (List.mem_cons_self c cs)]
    exact dropWhile_append_of_all fun x hx => h x (List.mem_cons_of_mem c hx)

lemma takeWhile_nil_of_head {p : Char → Bool} {l : List Char}
    (h : ∀ c, l.head? = some c → p c = false) : l.takeWhile p = [] := by
  cases l with
  | nil => rfl
  | cons c cs => simp [List.takeWhile_cons, h c rfl]

lemma dropWhile_eq_self_of_head {p : Char → Bool} {l : List Char}
    (h : ∀ c, l.head? = some c → p c = false) : l.dropWhile p = l := by
  cases l with
  | nil => rfl
  | cons c cs => simp [List.dropWhile_cons, h c rfl]

lemma dropWhile_head?_false {p : Char → Bool} :
    ∀ {l : List Char} {c : Char}, (l.dropWhile p).head? = some c → p c = false
  | [], c, h => by simp at h
  | x :: xs, c, h => by
    by_cases hx : p x
    · rw [List.dropWhile_cons, if_pos hx] at h
      exact dropWhile_head?_false h
    · rw [List.dropWhile_cons, if_neg hx] at h
      simp only [List.head?_cons, Option.some.injEq] at h
      subst h
      exact Bool.eq_false_iff.mpr hx

lemma dropWhile_is_suffix {p : Char → Bool} :
    ∀ l : List Char, ∃ t, l = t ++ l.dropWhile p
  | [] => ⟨[], rfl⟩
  | x :: xs => by
    by_cases hx : p x
    · obtain ⟨t, ht⟩ := dropWhile_is_suffix (p := p) xs
      exact ⟨x :: t, by rw [List.dropWhile_cons, if_pos hx]; simpa using ht⟩
    · exact ⟨[], by rw [List.dropWhile_cons, if_neg hx, List.nil_append]⟩

lemma mem_dropWhile {p : Char → Bool} {l : List Char} {c : Char}
    (h : c ∈ l.dropWhile p) : c ∈ l := by
  obtain ⟨t, ht⟩ := dropWhile_is_suffix (p := p) l
  rw [ht]
  exact List.mem_append_right t h

lemma mem_jsTrim {l : List Char} {c : Char} (h : c ∈ jsTrim l) : c ∈ l := by
  unfold jsTrim at h
  rw [List.mem_reverse] at h
  have h2 := mem_dropWhile h
  rw [List.mem_reverse] at h2
  exact mem_dropWhile h2

lemma jsTrim_nil_iff {l : List Char} : jsTrim l = [] ↔ ∀ c ∈ l, isSpaceJS c = true := by
  unfold jsTrim
  rw [List.reverse_eq_nil_iff, List.dropWhile_eq_nil_iff]
  constructor
  · intro h c hc
    by_contra hcf
    have hne : l.dropWhile isSpaceJS ≠ [] := by
      intro hnil
      rw [List.dropWhile_eq_nil_iff] at hnil
      exact hcf (hnil c hc)
    cases hl : l.dropWhile isSpaceJS with
    | nil => exact hne hl
    | cons a rest =>
      have ha : isSpaceJS a = false := by
        apply dropWhile_head?_false (p := isSpaceJS) (l := l)
        rw [hl]
        rfl
      have hmem : a ∈ (l.dropWhile isSpaceJS).reverse := by
        rw [hl]
        simp
      have hsp := h a hmem
      rw [ha] at hsp
      cases hsp
  · intro h c hc
    rw [List.mem_reverse] at hc
    exact h c (mem_dropWhile hc)

end BoxAudit

namespace BoxAudit

lemma jsTrim_head?_not_space {l : List Char} {c : Char}
    (h : (jsTrim l).head? = some c) : isSpaceJS c = false := by
  unfold jsTrim at h
  set A := l.dropWhile isSpaceJS with hA
  set B := A.reverse.dropWhile isSpaceJS with hB
  have hBne : B ≠ [] := by
    intro hnil
    rw [hnil] at h
    simp at h
  have h1 : B.reverse.head? = B.getLast? := List.head?_reverse B
  rw [h1] at h
  obtain ⟨t, ht⟩ := dropWhile_is_suffix (p := isSpaceJS) A.reverse
  have h2 : B.getLast? = A.reverse.getLast? := by
    rw [← hB] at ht
    conv_rhs => rw [ht]
    exact (List.getLast?_append_of_ne_nil t hBne).symm
  rw [h2, List.getLast?_reverse] at h
  exact dropWhile_head?_false (p := isSpaceJS) (l := l) h

lemma jsTrim_getLast?_not_space {l : List Char} {c : Char}
    (h : (jsTrim l).getLast? = some c) : isSpaceJS c = false := by
  unfold jsTrim at h
  rw [List.getLast?_reverse] at h
  exact dropWhile_head?_false h

lemma jsTrim_eq_self_of {l : List Char}
    (h1 : ∀ c, l.head? = some c → isSpaceJS c = false)
    (h2 : ∀ c, l.getLast? = some c → isSpaceJS c = false) : jsTrim l = l := by
  unfold jsTrim
  rw [dropWhile_eq_self_of_head h1]
  have h3 : ∀ c, l.reverse.head? = some c → isSpaceJS c = false := by
    intro c hc
    rw [List.head?_reverse] at hc
    exact h2 c hc
  rw [dropWhile_eq_self_of_head h3, List.reverse_reverse]

lemma jsTrim_idem (l : List Char) : jsTrim (jsTrim l) = jsTrim l :=
  jsTrim_eq_self_of (fun _ h => jsTrim_head?_not_space h)
    (fun _ h => jsTrim_getLast?_not_space h)

lemma jsTrim_ne_nil {l : List Char} {c : Char} (hc : c ∈ l)
    (hns : isSpaceJS c = false) : jsTrim l ≠ [] := by
  intro h
  rw [jsTrim_nil_iff] at h
  rw [h c hc] at hns
  cases hns

lemma jsUpperChar_fixed_of_mem_trim_upper {s : List Char} {c : Char}
    (h : c ∈ jsTrim (jsUpper s)) : jsUpperChar c = c := by
  have h1 := mem_jsTrim h
  unfold jsUpper at h1
  rw [List.mem_map] at h1
  obtain ⟨c0, _, hc0⟩ := h1
  rw [← hc0]
  exact jsUpperChar_idem c0

lemma trim_upper_fixed (s : List Char) :
    jsTrim (jsUpper (jsTrim (jsUpper s))) = jsTrim (jsUpper s) := by
  have h1 : jsUpper (jsTrim (jsUpper s)) = jsTrim (jsUpper s) :=
    map_id_of_fixed fun c hc => jsUpperChar_fixed_of_mem_trim_upper hc
  rw [h1, jsTrim_idem]

end BoxAudit

namespace BoxAudit

lemma digitChar_toNat {n : Nat} (h : n < 10) : (digitChar n).toNat = 48 + n := by
  unfold digitChar
  exact char_toNat_ofNat (by omega)

lemma isDigitChar_digitChar {n : Nat} (h : n < 10) : isDigitChar (digitChar n) = true := by
  rw [isDigitChar_iff, digitChar_toNat h]
  omega

lemma digitsToNat_append_single (l : List Char) (c : Char) :
    digitsToNat (l ++ [c]) = digitsToNat l * 10 + (c.toNat - 48) := by
  unfold digitsToNat
  rw [List.foldl_append]
  rfl

lemma natToDigitsAux_roundtrip : ∀ (fuel n : Nat), n ≤ fuel ∨ n < 10 →
    digitsToNat (natToDigitsAux fuel n) = n := by
  intro fuel
  induction fuel with
  | zero =>
    intro n hn
    have h10 : n < 10 := by omega
    unfold natToDigitsAux digitsToNat
    simp only [List.foldl_cons, List.foldl_nil]
    rw [digitChar_toNat h10]
    omega
  | succ f ih =>
    intro n hn
    unfold natToDigitsAux
    by_cases h10 : n < 10
    · rw [if_pos h10]
      unfold digitsToNat
      simp only [List.foldl_cons, List.foldl_nil]
      rw [digitChar_toNat h10]
      omega
    · rw [if_neg h10]
      rw [digitsToNat_append_single]
      have hdiv : n / 10 ≤ f ∨ n / 10 < 10 := by
        left
        omega
      rw [ih (n / 10) hdiv, digitChar_toNat (Nat.mod_lt n (by omega))]
      omega

lemma digitsToNat_natToDigits (n : Nat) : digitsToNat (natToDigits n) = n :=
  natToDigitsAux_roundtrip n n (Or.inl (Nat.le_refl n))

lemma natToDigitsAux_all_digits : ∀ (fuel n : Nat), n ≤ fuel ∨ n < 10 →
    ∀ c ∈ natToDigitsAux fuel n, isDigitChar c = true := by
  intro fuel
  induction fuel with
  | zero =>
    intro n hn c hc
    have h10 : n < 10 := by omega
    unfold natToDigitsAux at hc
    simp only [List.mem_singleton] at hc
    rw [hc]
    exact isDigitChar_digitChar h10
  | succ f ih =>
    intro n hn c hc
    unfold natToDigitsAux at hc
    by_cases h10 : n < 10
    · rw [if_pos h10] at hc
      simp only [List.mem_singleton] at hc
      rw [hc]
      exact isDigitChar_digitChar h10
    · rw [if_neg h10] at hc
      rw [List.mem_append] at hc
      rcases hc with hc | hc
      · exact ih (n / 10) (by left; omega) c hc
      · simp only [List.mem_singleton] at hc
        rw [hc]
        exact isDigitChar_digitChar (Nat.mod_lt n (by omega))

lemma natToDigits_all_digits {n : Nat} : ∀ c ∈ natToDigits n, isDigitChar c = true :=
  natToDigitsAux_all_digits n n (Or.inl (Nat.le_refl n))

lemma natToDigitsAux_ne_nil (fuel n : Nat) : natToDigitsAux fuel n ≠ [] := by
  cases fuel with
  | zero => simp [natToDigitsAux]
  | succ f =>
    unfold natToDigitsAux
    by_cases h10 : n < 10
    · rw [if_pos h10]
      simp
    · rw [if_neg h10]
      simp

lemma natToDigits_ne_nil (n : Nat) : natToDigits n ≠ [] := natToDigitsAux_ne_nil n n

lemma pad3_all_digits {l : List Char} (h : ∀ c ∈ l, isDigitChar c = true) :
    ∀ c ∈ pad3 l, isDigitChar c = true := by
  intro c hc
  unfold pad3 at hc
  rw [List.mem_append] at hc
  rcases hc with hc | hc
  · rw [List.eq_of_mem_replicate hc]
    decide
  · exact h c hc

lemma pad3_ne_nil {l : List Char} (h : l ≠ []) : pad3 l ≠ [] := by
  unfold pad3
  intro hc
  rw [List.append_eq_nil] at hc
  exact h hc.2

lemma digitsToNat_replicate_zero (k : Nat) (l : List Char) :
    digitsToNat (List.replicate k '0' ++ l) = digitsToNat l := by
  induction k with
  | zero => rfl
  | succ n ih =>
    rw [List.replicate_succ]
    unfold digitsToNat at ih ⊢
    simpa using ih

lemma digitsToNat_pad3 (l : List Char) : digitsToNat (pad3 l) = digitsToNat l :=
  digitsToNat_replicate_zero _ l

end BoxAudit

namespace BoxAudit

lemma mem_of_mem_takeWhile {p : Char → Bool} {l : List Char} {c : Char}
    (h : c ∈ l.takeWhile p) : c ∈ l :=
  (List.takeWhile_sublist p).mem h

lemma head?_ne_nil_mem {l : List Char} {c : Char} (h : l.head? = some c) : c ∈ l := by
  cases l with
  | nil => cases h
  | cons a rest =>
    simp only [List.head?_cons, Option.some.injEq] at h
    rw [← h]
    exact List.mem_cons_self a rest

lemma matchNumLet_sound {x : List Char} {d a : List Char}
    (h : matchNumLet x = some (d, a)) :
    d ≠ [] ∧ (∀ c ∈ d, isDigitChar c = true) ∧ (∀ c ∈ a, isAlphaChar c = true) := by
  unfold matchNumLet at h
  simp only at h
  split at h
  · cases h
  · rename_i hne
    split at h
    · simp only [Option.some.injEq, Prod.mk.injEq] at h
      obtain ⟨hd, ha⟩ := h
      subst hd
      subst ha
      exact ⟨hne, fun c hc => List.mem_takeWhile_imp hc,
        fun c hc => List.mem_takeWhile_imp hc⟩
    · cases h

lemma matchNumLet_of_stripped {x d a : List Char}
    (hstrip : x.dropWhile isSpaceJS = d ++ a)
    (hd : d ≠ []) (hdd : ∀ c ∈ d, isDigitChar c = true)
    (ha : ∀ c ∈ a, isAlphaChar c = true) : matchNumLet x = some (d, a) := by
  have hahead : ∀ c, a.head? = some c → isDigitChar c = false := by
    intro c hc
    exact not_digit_of_alpha (ha c (head?_ne_nil_mem hc))
  have htake : (d ++ a).takeWhile isDigitChar = d := by
    rw [takeWhile_append_of_all hdd, takeWhile_nil_of_head hahead, List.append_nil]
  have hdrop : (d ++ a).dropWhile isDigitChar = a := by
    rw [dropWhile_append_of_all hdd, dropWhile_eq_self_of_head hahead]
  unfold matchNumLet
  simp only [hstrip, htake, hdrop]
  rw [if_neg (by simpa using hd)]
  rw [List.takeWhile_eq_self_iff.mpr ha,
    List.dropWhile_eq_nil_iff.mpr (fun c hc => ha c hc)]
  simp

lemma shelfKey_cons (d a : List Char) :
    shelfKey d a = 'S' :: 'H' :: 'E' :: 'L' :: 'F' :: ' ' :: (d ++ a) := rfl

lemma dropCIPre_shelf_shelfKey (d a : List Char) :
    dropCIPre ("SHELF".toList) (shelfKey d a) = some (' ' :: (d ++ a)) := rfl

lemma dropWhile_space_cons_space (l : List Char) :
    (' ' :: l).dropWhile isSpaceJS = l.dropWhile isSpaceJS := by
  rw [List.dropWhile_cons, if_pos (by decide)]

lemma shelfMatchFull_shelfKey {d a : List Char}
    (hd : d ≠ []) (hdd : ∀ c ∈ d, isDigitChar c = true)
    (ha : ∀ c ∈ a, isAlphaChar c = true) :
    shelfMatchFull (shelfKey d a) = some (d, a) := by
  unfold shelfMatchFull
  rw [dropCIPre_shelf_shelfKey, Option.some_bind]
  apply matchNumLet_of_stripped _ hd hdd ha
  rw [dropWhile_space_cons_space]
  apply dropWhile_eq_self_of_head
  intro c hc
  have hc' : (d ++ a).head? = d.head? := List.head?_append_of_ne_nil _ hd
  rw [hc'] at hc
  exact not_space_of_digit (hdd c (head?_ne_nil_mem hc))

end BoxAudit

namespace BoxAudit

lemma shelfKey_ne_nil (d a : List Char) : shelfKey d a ≠ [] := by
  rw [shelfKey_cons]
  simp

lemma jsUpper_shelfKey {d a : List Char}
    (hdd : ∀ c ∈ d, isDigitChar c = true)
    (hafix : ∀ c ∈ a, jsUpperChar c = c) :
    jsUpper (shelfKey d a) = shelfKey d a := by
  apply map_id_of_fixed
  intro c hc
  rw [shelfKey_cons] at hc
  simp only [List.mem_cons, List.mem_append] at hc
  rcases hc with h | h | h | h | h | h | h | h
  · rw [h]; decide
  · rw [h]; decide
  · rw [h]; decide
  · rw [h]; decide
  · rw [h]; decide
  · rw [h]; decide
  · exact jsUpperChar_fixed_of_digit (hdd c h)
  · exact hafix c h

lemma getLast?_shelfKey_not_space {d a : List Char}
    (hd : d ≠ []) (hdd : ∀ c ∈ d, isDigitChar c = true)
    (ha : ∀ c ∈ a, isAlphaChar c = true) :
    ∀ c, (shelfKey d a).getLast? = some c → isSpaceJS c = false := by
  intro c hc
  by_cases hane : a = []
  · subst hane
    have h1 : shelfKey d [] = ("SHELF ".toList) ++ d := by
      unfold shelfKey
      rw [List.append_nil]
    rw [h1, List.getLast?_append_of_ne_nil _ hd] at hc
    exact not_space_of_digit (hdd c (List.mem_of_mem_getLast? (by rw [hc]; rfl)))
  · have h1 : shelfKey d a = (("SHELF ".toList) ++ d) ++ a := by
      unfold shelfKey
      rw [List.append_assoc]
    rw [h1, List.getLast?_append_of_ne_nil _ hane] at hc
    exact not_space_of_alpha (ha c (List.mem_of_mem_getLast? (by rw [hc]; rfl)))

lemma jsTrim_shelfKey {d a : List Char}
    (hd : d ≠ []) (hdd : ∀ c ∈ d, isDigitChar c = true)
    (ha : ∀ c ∈ a, isAlphaChar c = true) :
    jsTrim (shelfKey d a) = shelfKey d a := by
  apply jsTrim_eq_self_of
  · intro c hc
    rw [shelfKey_cons] at hc
    simp only [List.head?_cons, Option.some.injEq] at hc
    rw [← hc]
    decide
  · exact getLast?_shelfKey_not_space hd hdd ha

lemma normalizeBoxNumber_eq_of_ne_nil {s : List Char} (hne : s ≠ []) :
    normalizeBoxNumber s =
      (match shelfMatchFull (jsTrim (jsUpper s)) with
      | some (d, a) => some (shelfKey d a)
      | none =>
        match sMatchFull (jsTrim (jsUpper s)) with
        | some (d, a) => some (shelfKey d a)
        | none =>
          match firstDigitRun (jsTrim (jsUpper s)) with
          | some ds => some (("BOX".toList) ++ pad3 (natToDigits (digitsToNat ds)))
          | none => some (jsTrim (jsUpper s))) := by
  unfold normalizeBoxNumber
  rw [if_neg hne]

lemma normalizeBoxNumber_shelfKey {d a : List Char}
    (hd : d ≠ []) (hdd : ∀ c ∈ d, isDigitChar c = true)
    (ha : ∀ c ∈ a, isAlphaChar c = true)
    (hafix : ∀ c ∈ a, jsUpperChar c = c) :
    normalizeBoxNumber (shelfKey d a) = some (shelfKey d a) := by
  rw [normalizeBoxNumber_eq_of_ne_nil (shelfKey_ne_nil d a)]
  rw [jsUpper_shelfKey hdd hafix, jsTrim_shelfKey hd hdd ha,
    shelfMatchFull_shelfKey hd hdd ha]

end BoxAudit

namespace BoxAudit

lemma dropCIPre_subset : ∀ {w u rest : List Char}, dropCIPre w u = some rest →
    ∀ c ∈ rest, c ∈ u
  | [], u, rest, h => by
    simp only [dropCIPre, Option.some.injEq] at h
    rw [← h]
    exact fun c hc => hc
  | p :: ps, [], rest, h => by cases h
  | p :: ps, c0 :: cs, rest, h => by
    simp only [dropCIPre] at h
    split at h
    · intro c hc
      exact List.mem_cons_of_mem c0 (dropCIPre_subset h c hc)
    · cases h

lemma matchNumLet_subset {x d a : List Char} (h : matchNumLet x = some (d, a)) :
    (∀ c ∈ d, c ∈ x) ∧ (∀ c ∈ a, c ∈ x) := by
  unfold matchNumLet at h
  simp only at h
  split at h
  · cases h
  · split at h
    · simp only [Option.some.injEq, Prod.mk.injEq] at h
      obtain ⟨hd, ha⟩ := h
      constructor
      · intro c hc
        rw [← hd] at hc
        exact mem_dropWhile (mem_of_mem_takeWhile hc)
      · intro c hc
        rw [← ha] at hc
        exact mem_dropWhile (mem_dropWhile (mem_of_mem_takeWhile hc))
    · cases h

lemma shelfMatchFull_subset {x d a : List Char} (h : shelfMatchFull x = some (d, a)) :
    (∀ c ∈ d, c ∈ x) ∧ (∀ c ∈ a, c ∈ x) := by
  unfold shelfMatchFull at h
  cases hdp : dropCIPre ("SHELF".toList) x with
  | none => rw [hdp] at h; cases h
  | some rest =>
    rw [hdp, Option.some_bind] at h
    have hsub := matchNumLet_subset h
    exact ⟨fun c hc => dropCIPre_subset hdp c (hsub.1 c hc),
      fun c hc => dropCIPre_subset hdp c (hsub.2 c hc)⟩

lemma sMatchFull_subset {x d a : List Char} (h : sMatchFull x = some (d, a)) :
    (∀ c ∈ d, c ∈ x) ∧ (∀ c ∈ a, c ∈ x) := by
  unfold sMatchFull at h
  cases hdp : dropCIPre ("S".toList) x with
  | none => rw [hdp] at h; cases h
  | some rest =>
    rw [hdp, Option.some_bind] at h
    have hsub := matchNumLet_subset h
    exact ⟨fun c hc => dropCIPre_subset hdp c (hsub.1 c hc),
      fun c hc => dropCIPre_subset hdp c (hsub.2 c hc)⟩

lemma shelfMatchFull_sound {x d a : List Char} (h : shelfMatchFull x = some (d, a)) :
    d ≠ [] ∧ (∀ c ∈ d, isDigitChar c = true) ∧ (∀ c ∈ a, isAlphaChar c = true) := by
  unfold shelfMatchFull at h
  cases hdp : dropCIPre ("SHELF".toList) x with
  | none => rw [hdp] at h; cases h
  | some rest =>
    rw [hdp, Option.some_bind] at h
    exact matchNumLet_sound h

lemma sMatchFull_sound {x d a : List Char} (h : sMatchFull x = some (d, a)) :
    d ≠ [] ∧ (∀ c ∈ d, isDigitChar c = true) ∧ (∀ c ∈ a, isAlphaChar c = true) := by
  unfold sMatchFull at h
  cases hdp : dropCIPre ("S".toList) x with
  | none => rw [hdp] at h; cases h
  | some rest =>
    rw [hdp, Option.some_bind] at h
    exact matchNumLet_sound h

end BoxAudit

namespace BoxAudit

lemma boxKeyList_ne_nil (ds : List Char) : ("BOX".toList) ++ ds ≠ [] := by simp

lemma jsUpper_boxKey {ds : List Char} (hds : ∀ c ∈ ds, isDigitChar c = true) :
    jsUpper (("BOX".toList) ++ ds) = ("BOX".toList) ++ ds := by
  apply map_id_of_fixed
  intro c hc
  rw [List.mem_append] at hc
  rcases hc with h | h
  · rw [show ("BOX".toList) = ['B', 'O', 'X'] from rfl] at h
    simp only [List.mem_cons, List.not_mem_nil, or_false] at h
    rcases h with h | h | h
    · rw [h]; decide
    · rw [h]; decide
    · rw [h]; decide
  · exact jsUpperChar_fixed_of_digit (hds c h)

lemma jsTrim_boxKey {ds : List Char} (hdsne : ds ≠ [])
    (hds : ∀ c ∈ ds, isDigitChar c = true) :
    jsTrim (("BOX".toList) ++ ds) = ("BOX".toList) ++ ds := by
  apply jsTrim_eq_self_of
  · intro c hc
    have : (("BOX".toList) ++ ds).head? = some 'B' := rfl
    rw [this] at hc
    simp only [Option.some.injEq] at hc
    rw [← hc]
    decide
  · intro c hc
    rw [List.getLast?_append_of_ne_nil _ hdsne] at hc
    exact not_space_of_digit (hds c (List.mem_of_mem_getLast? (by rw [hc]; rfl)))

lemma shelfMatchFull_boxKey (ds : List Char) :
    shelfMatchFull (("BOX".toList) ++ ds) = none := rfl

lemma sMatchFull_boxKey (ds : List Char) :
    sMatchFull (("BOX".toList) ++ ds) = none := rfl

lemma firstDigitRun_boxKey {ds : List Char} (hdsne : ds ≠ [])
    (hds : ∀ c ∈ ds, isDigitChar c = true) :
    firstDigitRun (("BOX".toList) ++ ds) = some ds := by
  unfold firstDigitRun
  have h1 : (("BOX".toList) ++ ds).dropWhile (fun c => !isDigitChar c) = ds := by
    rw [dropWhile_append_of_all (by decide)]
    apply dropWhile_eq_self_of_head
    intro c hc
    rw [hds c (head?_ne_nil_mem hc)]
    rfl
  rw [h1]
  cases hd : ds with
  | nil => exact absurd hd hdsne
  | cons c rest =>
    have h2 : (c :: rest).takeWhile isDigitChar = c :: rest := by
      apply List.takeWhile_eq_self_iff.mpr
      intro x hx
      rw [← hd] at hx
      exact hds x hx
    show some ((c :: rest).takeWhile isDigitChar) = some (c :: rest)
    rw [h2]

lemma normalizeBoxNumber_boxKey (n : Nat) :
    normalizeBoxNumber (("BOX".toList) ++ pad3 (natToDigits n)) =
      some (("BOX".toList) ++ pad3 (natToDigits n)) := by
  have hds : ∀ c ∈ pad3 (natToDigits n), isDigitChar c = true :=
    pad3_all_digits natToDigits_all_digits
  have hdsne : pad3 (natToDigits n) ≠ [] := pad3_ne_nil (natToDigits_ne_nil n)
  rw [normalizeBoxNumber_eq_of_ne_nil (boxKeyList_ne_nil _)]
  rw [jsUpper_boxKey hds, jsTrim_boxKey hdsne hds, shelfMatchFull_boxKey,
    sMatchFull_boxKey, firstDigitRun_boxKey hdsne hds]
  simp only [Option.some.injEq, List.append_cancel_left_eq]
  rw [digitsToNat_pad3, digitsToNat_natToDigits]

lemma normalizeBoxNumber_fallback {u : List Char}
    (h1 : shelfMatchFull u = none) (h2 : sMatchFull u = none)
    (h3 : firstDigitRun u = none) (hne : u ≠ [])
    (hfix : jsTrim (jsUpper u) = u) :
    normalizeBoxNumber u = some u := by
  rw [normalizeBoxNumber_eq_of_ne_nil hne, hfix, h1, h2, h3]

/-- Every result of normalizeBoxNumber on an input with at least one
non-whitespace character is a fixed point of normalizeBoxNumber. -/
lemma norm_fixed {s r : List Char}
    (hnb : ∃ c ∈ s, isSpaceJS c = false)
    (h : normalizeBoxNumber s = some r) : normalizeBoxNumber r = some r := by
  have hsne : s ≠ [] := by
    intro hs
    obtain ⟨c, hc, _⟩ := hnb
    rw [hs] at hc
    cases hc
  rw [normalizeBoxNumber_eq_of_ne_nil hsne] at h
  cases hsh : shelfMatchFull (jsTrim (jsUpper s)) with
  | some pr =>
    obtain ⟨d, a⟩ := pr
    rw [hsh] at h
    simp only [Option.some.injEq] at h
    obtain ⟨hd, hdd, ha⟩ := shelfMatchFull_sound hsh
    have hafix : ∀ c ∈ a, jsUpperChar c = c := fun c hc =>
      jsUpperChar_fixed_of_mem_trim_upper ((shelfMatchFull_subset hsh).2 c hc)
    rw [← h]
    exact normalizeBoxNumber_shelfKey hd hdd ha hafix
  | none =>
    rw [hsh] at h
    cases hsm : sMatchFull (jsTrim (jsUpper s)) with
    | some pr =>
      obtain ⟨d, a⟩ := pr
      rw [hsm] at h
      simp only [Option.some.injEq] at h
      obtain ⟨hd, hdd, ha⟩ := sMatchFull_sound hsm
      have hafix : ∀ c ∈ a, jsUpperChar c = c := fun c hc =>
        jsUpperChar_fixed_of_mem_trim_upper ((sMatchFull_subset hsm).2 c hc)
      rw [← h]
      exact normalizeBoxNumber_shelfKey hd hdd ha hafix
    | none =>
      rw [hsm] at h
      cases hfd : firstDigitRun (jsTrim (jsUpper s)) with
      | some ds =>
        rw [hfd] at h
        simp only [Option.some.injEq] at h
        rw [← h]
        exact normalizeBoxNumber_boxKey (digitsToNat ds)
      | none =>
        rw [hfd] at h
        simp only [Option.some.injEq] at h
        subst h
        have hfix := trim_upper_fixed s
        obtain ⟨c, hc, hcs⟩ := hnb
        have hru : jsTrim (jsUpper s) ≠ [] := by
          apply jsTrim_ne_nil (c := jsUpperChar c)
          · exact List.mem_map_of_mem jsUpperChar hc
          · rw [isSpaceJS_jsUpperChar]
            exact hcs
        exact normalizeBoxNumber_fallback hsh hsm hfd hru hfix

end BoxAudit

namespace BoxAudit

lemma getLastD_concat (l : List Session) (s d : Session) :
    (l ++ [s]).getLastD d = s := by
  have h1 : (l ++ [s]).getLast? = some s := by
    rw [List.getLast?_append_of_ne_nil _ (by simp)]
    rfl
  rw [List.getLastD_eq_getLast?, h1]
  rfl

lemma recordAll_append_single (maxSize : Nat) (l : List Session) (s : Session)
    (st : HistState) :
    recordAll maxSize (l ++ [s]) st =
      saveStateToHistory maxSize { recordAll maxSize l st with cur := s } := by
  unfold recordAll
  rw [List.foldl_append]
  rfl

lemma recordAll_under_cap (maxSize : Nat) :
    ∀ (l : List Session) (s0 : Session), l.length ≤ maxSize →
      recordAll maxSize l (initHist s0) = ⟨l, (l.length : Int) - 1, l.getLastD s0⟩ := by
  intro l
  induction l using List.reverseRecOn with
  | nil =>
    intro s0 hlen
    unfold recordAll initHist
    simp
  | append_singleton l s ih =>
    intro s0 hlen
    rw [recordAll_append_single]
    rw [ih s0 (by simp at hlen; omega)]
    unfold saveStateToHistory
    simp only
    have htake : (((l.length : Int) - 1) + 1).toNat = l.length := by omega
    rw [htake, List.take_length]
    have hlen2 : (l ++ [s]).length = l.length + 1 := by simp
    rw [if_neg (by simp only [hlen2]; simp at hlen; omega)]
    rw [getLastD_concat]

lemma recordAll_fifty_one (ss : List Session) (s0 : Session) (hlen : ss.length = 51) :
    recordAll 50 ss (initHist s0) =
      ⟨ss.drop 1, 49, ss.getLastD s0⟩ := by
  have hne : ss ≠ [] := by
    intro h
    rw [h] at hlen
    cases hlen
  have hsplit : ss.dropLast ++ [ss.getLast hne] = ss := List.dropLast_append_getLast hne
  have hdl : ss.dropLast.length = 50 := by
    rw [List.length_dropLast, hlen]
  conv_lhs => rw [← hsplit]
  rw [recordAll_append_single]
  rw [recordAll_under_cap 50 ss.dropLast s0 (by omega)]
  unfold saveStateToHistory
  simp only [hdl]
  have htake : (((50 : Nat) : Int) - 1 + 1).toNat = 50 := by omega
  rw [htake]
  have htake2 : ss.dropLast.take 50 = ss.dropLast := by
    rw [← hdl, List.take_length]
  rw [htake2]
  have hlen2 : (ss.dropLast ++ [ss.getLast hne]).length = 51 := by
    rw [hsplit, hlen]
  rw [if_pos (by rw [hlen2]; omega)]
  have hdrop : (ss.dropLast ++ [ss.getLast hne]).drop 1 = ss.drop 1 := by
    rw [hsplit]
  rw [hdrop, hlen2]
  have hcur : ss.getLast hne = ss.getLastD s0 := by
    rw [List.getLastD_eq_getLast?, List.getLast?_eq_getLast ss hne]
    rfl
  rw [hcur]
  norm_num

lemma undo_pos (hi : List Session) (i : Int) (c : Session) (h : 0 < i) :
    undo ⟨hi, i, c⟩ = (⟨hi, i - 1, hi.getD (i - 1).toNat emptySession⟩, true) := by
  unfold undo
  rw [if_pos h]

lemma undo_nonpos (hi : List Session) (i : Int) (c : Session) (h : ¬ 0 < i) :
    undo ⟨hi, i, c⟩ = (⟨hi, i, c⟩, false) := by
  unfold undo
  rw [if_neg h]

lemma undo_iter_state (hi : List Session) (c0 : Session) :
    ∀ k : Nat, k ≤ 49 →
      ∃ c : Session, (fun st => (undo st).1)^[k] ⟨hi, 49, c0⟩ = ⟨hi, 49 - (k : Int), c⟩ := by
  intro k
  induction k with
  | zero =>
    intro _
    exact ⟨c0, rfl⟩
  | succ n ih =>
    intro hk
    obtain ⟨c, hc⟩ := ih (by omega)
    rw [Function.iterate_succ_apply', hc]
    show ∃ d : Session, (undo ⟨hi, 49 - (n : Int), c⟩).1 = _
    rw [undo_pos hi (49 - (n : Int)) c (by omega)]
    refine ⟨hi.getD (49 - (n : Int) - 1).toNat emptySession, ?_⟩
    have hidx : (49 : Int) - ((n + 1 : Nat) : Int) = 49 - (n : Int) - 1 := by
      push_cast
      ring
    rw [hidx]

end BoxAudit

namespace BoxAudit

lemma redo_lt (hi : List Session) (i : Int) (c : Session) (h : i < (hi.length : Int) - 1) :
    redo ⟨hi, i, c⟩ = (⟨hi, i + 1, hi.getD (i + 1).toNat emptySession⟩, true) := by
  unfold redo
  rw [if_pos h]

end BoxAudit

namespace BoxAudit

/-- Claim C7: record truncates entries after the cursor, appends the
live session and moves the cursor to the end; on exceeding the cap the
oldest entry is evicted and the cursor moves back; hence fifty-one
record calls against a cap of fifty leave exactly fifty entries (the
first call's snapshot evicted) and undo succeeds exactly forty-nine
times before reporting a no-op. -/
theorem claim_C7_history_record :
    (∀ (mx : Nat) (st : HistState),
      (st.hist.take (st.idx + 1).toNat ++ [st.cur]).length ≤ mx →
      saveStateToHistory mx st =
        ⟨st.hist.take (st.idx + 1).toNat ++ [st.cur],
         ((st.hist.take (st.idx + 1).toNat ++ [st.cur]).length : Int) - 1, st.cur⟩) ∧
    (∀ (mx : Nat) (st : HistState),
      (st.hist.take (st.idx + 1).toNat ++ [st.cur]).length > mx →
      saveStateToHistory mx st =
        ⟨(st.hist.take (st.idx + 1).toNat ++ [st.cur]).drop 1,
         ((st.hist.take (st.idx + 1).toNat ++ [st.cur]).length : Int) - 1 - 1, st.cur⟩) ∧
    (∀ (ss : List Session) (s0 : Session), ss.length = 51 →
      (recordAll 50 ss (initHist s0)).hist.length = 50 ∧
      (recordAll 50 ss (initHist s0)).hist = ss.drop 1 ∧
      (recordAll 50 ss (initHist s0)).idx = 49) ∧
    (∀ (ss : List Session) (s0 : Session), ss.length = 51 → ∀ k : Nat, k < 49 →
      (undo ((fun st => (undo st).1)^[k] (recordAll 50 ss (initHist s0)))).2 = true) ∧
    (∀ (ss : List Session) (s0 : Session), ss.length = 51 →
      (undo ((fun st => (undo st).1)^[49] (recordAll 50 ss (initHist s0)))).2 = false) := by
  refine ⟨?_, ?_, ?_, ?_, ?_⟩
  · intro mx st hle
    unfold saveStateToHistory
    rw [if_neg (by omega)]
  · intro mx st hgt
    unfold saveStateToHistory
    rw [if_pos (by omega)]
  · intro ss s0 hlen
    rw [recordAll_fifty_one ss s0 hlen]
    refine ⟨?_, rfl, rfl⟩
    simp [List.length_drop, hlen]
  · intro ss s0 hlen k hk
    rw [recordAll_fifty_one ss s0 hlen]
    obtain ⟨c, hc⟩ := undo_iter_state (ss.drop 1) (ss.getLastD s0) k (by omega)
    rw [hc, undo_pos _ _ _ (by omega)]
  · intro ss s0 hlen
    rw [recordAll_fifty_one ss s0 hlen]
    obtain ⟨c, hc⟩ := undo_iter_state (ss.drop 1) (ss.getLastD s0) 49 (by omega)
    rw [hc, undo_nonpos _ _ _ (by omega)]

/-- Witness for C7 at a concrete run of fifty-one records. -/
theorem claim_C7_history_record_witness :
    (recordAll 50 (List.replicate 51 emptySession) (initHist emptySession)).hist.length = 50 ∧
    (undo ((fun st => (undo st).1)^[3]
      (recordAll 50 (List.replicate 51 emptySession) (initHist emptySession)))).2 = true ∧
    (undo ((fun st => (undo st).1)^[49]
      (recordAll 50 (List.replicate 51 emptySession) (initHist emptySession)))).2 = false :=
  ⟨(claim_C7_history_record.2.2.1 (List.replicate 51 emptySession) emptySession (by decide)).1,
   claim_C7_history_record.2.2.2.1 (List.replicate 51 emptySession) emptySession (by decide) 3
     (by decide),
   claim_C7_history_record.2.2.2.2 (List.replicate 51 emptySession) emptySession (by decide)⟩

/-- Claim C8: from any history state in which the cursor is past the
first snapshot, within range, and the live session equals the snapshot
at the cursor, undo succeeds and an immediate redo succeeds and
restores the exact pre-undo state. -/
theorem claim_C8_undo_redo_roundtrip (st : HistState)
    (h1 : 0 < st.idx) (h2 : st.idx < (st.hist.length : Int))
    (h3 : st.cur = st.hist.getD st.idx.toNat emptySession) :
    (undo st).2 = true ∧ (redo (undo st).1).2 = true ∧ (redo (undo st).1).1 = st := by
  obtain ⟨hi, i, c⟩ := st
  simp only at h1 h2 h3
  rw [undo_pos hi i c h1]
  rw [redo_lt hi (i - 1) _ (by omega)]
  refine ⟨rfl, rfl, ?_⟩
  have hidx : i - 1 + 1 = i := by omega
  rw [hidx, h3]

/-- Witness for C8 at a concrete two-snapshot history. -/
theorem claim_C8_undo_redo_roundtrip_witness :
    (undo ⟨[emptySession, ⟨none, none, [(("A".toList), createEmptyBoxData)]⟩], 1,
      ⟨none, none, [(("A".toList), createEmptyBoxData)]⟩⟩).2 = true ∧
    (redo (undo ⟨[emptySession, ⟨none, none, [(("A".toList), createEmptyBoxData)]⟩], 1,
      ⟨none, none, [(("A".toList), createEmptyBoxData)]⟩⟩).1).2 = true ∧
    (redo (undo ⟨[emptySession, ⟨none, none, [(("A".toList), createEmptyBoxData)]⟩], 1,
      ⟨none, none, [(("A".toList), createEmptyBoxData)]⟩⟩).1).1 =
      ⟨[emptySession, ⟨none, none, [(("A".toList), createEmptyBoxData)]⟩], 1,
      ⟨none, none, [(("A".toList), createEmptyBoxData)]⟩⟩ :=
  claim_C8_undo_redo_roundtrip _ (by decide) (by decide) (by decide)

/-- Claim C10: the location normalizer is idempotent on its own
outputs for every input containing a non-whitespace character, and the
exception is real: non-empty all-whitespace input normalizes to the
empty string, which the normalizer itself maps to no result. -/
theorem claim_C10_normalizer_idempotent :
    (∀ s r : List Char, (∃ c ∈ s, isSpaceJS c = false) →
      normalizeBoxNumber s = some r → normalizeBoxNumber r = some r) ∧
    (∀ s : List Char, s ≠ [] → (∀ c ∈ s, isSpaceJS c = true) →
      normalizeBoxNumber s = some []) ∧
    normalizeBoxNumber [] = none := by
  refine ⟨fun s r hnb h => norm_fixed hnb h, ?_, rfl⟩
  intro s hne hsp
  have hu : jsTrim (jsUpper s) = [] := by
    rw [jsTrim_nil_iff]
    intro c hc
    unfold jsUpper at hc
    rw [List.mem_map] at hc
    obtain ⟨c0, hc0, hcc⟩ := hc
    rw [← hcc, isSpaceJS_jsUpperChar]
    exact hsp c0 hc0
  rw [normalizeBoxNumber_eq_of_ne_nil hne, hu]
  rfl

/-- Witness for C10 at concrete box and whitespace inputs. -/
theorem claim_C10_normalizer_idempotent_witness :
    normalizeBoxNumber ("BOX042".toList) = some ("BOX042".toList) ∧
    normalizeBoxNumber (" ".toList) = some [] :=
  ⟨claim_C10_normalizer_idempotent.1 ("box42".toList) ("BOX042".toList)
      ⟨'b', by decide, by decide⟩ (by decide),
   claim_C10_normalizer_idempotent.2.1 (" ".toList) (by decide) (by decide)⟩

end BoxAudit

namespace BoxAudit

/-- Counterexample for C2: on input with surrounding whitespace and no
shelf or digit pattern, the normalizer returns the upper-cased TRIMMED
input, not the upper-cased input verbatim as the claim states. -/
theorem claim_C2_counterexample :
    normalizeBoxNumber (" a b ".toList) = some ("A B".toList) ∧
    jsUpper (" a b ".toList) = (" A B ".toList) ∧
    ("A B".toList) ≠ (" A B ".toList) := by decide

/-- Claim C2 as amended: the normalizer upper-cases and trims, tries
the SHELF pattern, then the shorthand S pattern, then the first digit
run printed as a zero-padded box number, and otherwise returns the
upper-cased trimmed input; empty input yields no result; with the
spec's eight examples. -/
theorem claim_C2_amended_normalizer :
    normalizeBoxNumber ("shelf 2c".toList) = some ("SHELF 2C".toList) ∧
    normalizeBoxNumber ("SHELF2C".toList) = some ("SHELF 2C".toList) ∧
    normalizeBoxNumber ("s 2c".toList) = some ("SHELF 2C".toList) ∧
    normalizeBoxNumber ("S2C".toList) = some ("SHELF 2C".toList) ∧
    normalizeBoxNumber ("box42".toList) = some ("BOX042".toList) ∧
    normalizeBoxNumber ("B042".toList) = some ("BOX042".toList) ∧
    normalizeBoxNumber ("42".toList) = some ("BOX042".toList) ∧
    normalizeBoxNumber ("BOX 042".toList) = some ("BOX042".toList) ∧
    normalizeBoxNumber [] = none ∧
    (∀ s d a, s ≠ [] → shelfMatchFull (jsTrim (jsUpper s)) = some (d, a) →
      normalizeBoxNumber s = some (shelfKey d a)) ∧
    (∀ s d a, s ≠ [] → shelfMatchFull (jsTrim (jsUpper s)) = none →
      sMatchFull (jsTrim (jsUpper s)) = some (d, a) →
      normalizeBoxNumber s = some (shelfKey d a)) ∧
    (∀ s ds, s ≠ [] → shelfMatchFull (jsTrim (jsUpper s)) = none →
      sMatchFull (jsTrim (jsUpper s)) = none →
      firstDigitRun (jsTrim (jsUpper s)) = some ds →
      normalizeBoxNumber s = some (("BOX".toList) ++ pad3 (natToDigits (digitsToNat ds)))) ∧
    (∀ s, s ≠ [] → shelfMatchFull (jsTrim (jsUpper s)) = none →
      sMatchFull (jsTrim (jsUpper s)) = none →
      firstDigitRun (jsTrim (jsUpper s)) = none →
      normalizeBoxNumber s = some (jsTrim (jsUpper s))) := by
  refine ⟨by decide, by decide, by decide, by decide, by decide, by decide, by decide,
    by decide, rfl, ?_, ?_, ?_, ?_⟩
  · intro s d a hne hsh
    rw [normalizeBoxNumber_eq_of_ne_nil hne, hsh]
  · intro s d a hne hsh hsm
    rw [normalizeBoxNumber_eq_of_ne_nil hne, hsh, hsm]
  · intro s ds hne hsh hsm hfd
    rw [normalizeBoxNumber_eq_of_ne_nil hne, hsh, hsm, hfd]
  · intro s hne hsh hsm hfd
    rw [normalizeBoxNumber_eq_of_ne_nil hne, hsh, hsm, hfd]

/-- Witness for the amended C2 at a concrete fallback input. -/
theorem claim_C2_amended_normalizer_witness :
    normalizeBoxNumber (" a b ".toList) = some (jsTrim (jsUpper (" a b ".toList))) :=
  claim_C2_amended_normalizer.2.2.2.2.2.2.2.2.2.2.2.2 (" a b ".toList)
    (by decide) (by decide) (by decide) (by decide)

end BoxAudit

namespace BoxAudit

lemma parseQuantity_x_branch {s pre ds : List Char} (hne : s ≠ [])
    (hx : matchXSuffix (jsTrim s) = some (pre, ds)) :
    parseQuantity s = ⟨if jsTrim pre = [] then s else jsTrim pre,
      if digitsToNat ds = 0 then 1 else digitsToNat ds⟩ := by
  unfold parseQuantity
  rw [if_neg hne]
  simp only [hx]
  by_cases h : digitsToNat ds = 0 <;> simp [h]

lemma parseQuantity_paren_branch {s pre ds : List Char} (hne : s ≠ [])
    (hx : matchXSuffix (jsTrim s) = none)
    (hp : matchParenSuffix (jsTrim s) = some (pre, ds)) :
    parseQuantity s = ⟨if jsTrim pre = [] then s else jsTrim pre,
      if digitsToNat ds = 0 then 1 else digitsToNat ds⟩ := by
  unfold parseQuantity
  rw [if_neg hne]
  simp only [hx, hp]
  by_cases h : digitsToNat ds = 0 <;> simp [h]

lemma parseQuantity_no_match {s : List Char} (hne : s ≠ [])
    (hx : matchXSuffix (jsTrim s) = none)
    (hp : matchParenSuffix (jsTrim s) = none) :
    parseQuantity s = ⟨if jsTrim s = [] then s else jsTrim s, 1⟩ := by
  unfold parseQuantity
  rw [if_neg hne]
  simp only [hx, hp]

/-- Counterexample for C3: on the input consisting of a bare
parenthesised quantity, the parenthesis pattern matches with an empty
stripped name, and the parser returns the original input as the name
rather than the stripped-and-trimmed (empty) text the claim requires. -/
theorem claim_C3_counterexample :
    matchParenSuffix (jsTrim ("(3)".toList)) = some ([], ("3".toList)) ∧
    parseQuantity ("(3)".toList) = ⟨"(3)".toList, 3⟩ ∧
    ("(3)".toList) ≠ ([] : List Char) := by decide

/-- Claim C3 as amended: the parser tries the trailing x pattern and
then the trailing parenthesis pattern against the trimmed input; on a
match the quantity is the parsed digits with minimum one and the name
is the text with the suffix stripped and trimmed, except that an empty
stripped name falls back to the original input; with no match the
trimmed input (or, when even that is empty, the original input) comes
back with quantity one; the parser never fails, and empty input gives
the empty name with quantity one. -/
theorem claim_C3_amended_parse_quantity :
    parseQuantity ("batteries x3".toList) = ⟨"batteries".toList, 3⟩ ∧
    parseQuantity ("widget (4)".toList) = ⟨"widget".toList, 4⟩ ∧
    parseQuantity ("pen".toList) = ⟨"pen".toList, 1⟩ ∧
    parseQuantity [] = ⟨[], 1⟩ ∧
    parseQuantity ("pen x0".toList) = ⟨"pen".toList, 1⟩ ∧
    (∀ s pre ds, s ≠ [] → matchXSuffix (jsTrim s) = some (pre, ds) →
      parseQuantity s = ⟨if jsTrim pre = [] then s else jsTrim pre,
        if digitsToNat ds = 0 then 1 else digitsToNat ds⟩) ∧
    (∀ s pre ds, s ≠ [] → matchXSuffix (jsTrim s) = none →
      matchParenSuffix (jsTrim s) = some (pre, ds) →
      parseQuantity s = ⟨if jsTrim pre = [] then s else jsTrim pre,
        if digitsToNat ds = 0 then 1 else digitsToNat ds⟩) ∧
    (∀ s, s ≠ [] → matchXSuffix (jsTrim s) = none →
      matchParenSuffix (jsTrim s) = none →
      parseQuantity s = ⟨if jsTrim s = [] then s else jsTrim s, 1⟩) := by
  refine ⟨by decide, by decide, by decide, by decide, by decide, ?_, ?_, ?_⟩
  · intro s pre ds hne hx
    exact parseQuantity_x_branch hne hx
  · intro s pre ds hne hx hp
    exact parseQuantity_paren_branch hne hx hp
  · intro s hne hx hp
    exact parseQuantity_no_match hne hx hp

/-- Witness for the amended C3 at a concrete x-suffix input. -/
theorem claim_C3_amended_parse_quantity_witness :
    parseQuantity ("batteries  x12 ".toList) =
      ⟨if jsTrim ("batteries".toList) = [] then ("batteries  x12 ".toList)
        else jsTrim ("batteries".toList),
       if digitsToNat ("12".toList) = 0 then 1 else digitsToNat ("12".toList)⟩ :=
  claim_C3_amended_parse_quantity.2.2.2.2.2.1 ("batteries  x12 ".toList)
    ("batteries".toList) ("12".toList) (by decide) (by decide)

end BoxAudit

namespace BoxAudit

/-- Uniqueness of case-insensitive trimmed item names inside one box
record, the invariant claimed for the session. -/
def uniqueNames (l : List Item) : Prop :=
  l.Pairwise (fun i j => lowerTrim i.name ≠ lowerTrim j.name)

instance (l : List Item) : Decidable (uniqueNames l) := by
  unfold uniqueNames
  infer_instance

/-- Item sequence of the record stored at a key (empty when the key is
absent). -/
def itemsOf (s : Session) (k : List Char) : List Item :=
  ((lookupBox s.boxes k).getD createEmptyBoxData).items

lemma addMerge_none {p : ParsedQty} {now : List Char} :
    ∀ {l : List Item}, addMerge p now l = none →
      ∀ it ∈ l, lowerTrim it.name ≠ lowerTrim p.name
  | [], _, it, hit => absurd hit (List.not_mem_nil it)
  | x :: xs, h, it, hit => by
    unfold addMerge at h
    split at h
    · cases h
    · rename_i hx
      rw [List.mem_cons] at hit
      rcases hit with hit | hit
      · rw [hit]
        exact hx
      · cases ha : addMerge p now xs with
        | none => exact addMerge_none ha it hit
        | some r =>
          rw [ha] at h
          cases h

lemma addMerge_names_perm {p : ParsedQty} {now : List Char} :
    ∀ {l l' : List Item}, addMerge p now l = some l' →
      List.Perm (l'.map fun i => lowerTrim i.name) (l.map fun i => lowerTrim i.name)
  | [], l', h => by cases h
  | x :: xs, l', h => by
    unfold addMerge at h
    split at h
    · simp only [Option.some.injEq] at h
      rw [← h]
      simp only [List.map_append, List.map_cons, List.map_nil]
      exact List.perm_append_singleton _ _
    · cases ha : addMerge p now xs with
      | none =>
        rw [ha] at h
        cases h
      | some r =>
        rw [ha] at h
        simp only [Option.map_some', Option.some.injEq] at h
        rw [← h]
        simp only [List.map_cons]
        exact List.Perm.cons _ (addMerge_names_perm ha)

lemma uniqueNames_iff_pairwise_map {l : List Item} :
    uniqueNames l ↔ (l.map fun i => lowerTrim i.name).Pairwise (fun a b => a ≠ b) := by
  unfold uniqueNames
  rw [List.pairwise_map]

lemma uniqueNames_of_perm {l l' : List Item}
    (hperm : List.Perm (l'.map fun i => lowerTrim i.name) (l.map fun i => lowerTrim i.name))
    (h : uniqueNames l) : uniqueNames l' := by
  rw [uniqueNames_iff_pairwise_map] at h ⊢
  exact (hperm.pairwise_iff fun hab => Ne.symm hab).mpr h

lemma lookupBox_cons (k0 : List Char) (b0 : BoxData) (rest : List (List Char × BoxData))
    (k : List Char) :
    lookupBox ((k0, b0) :: rest) k = if k0 = k then some b0 else lookupBox rest k := rfl

lemma updateBox_cons (k0 : List Char) (b0 : BoxData) (rest : List (List Char × BoxData))
    (k : List Char) (b : BoxData) :
    updateBox ((k0, b0) :: rest) k b =
      if k0 = k then (k0, b) :: rest else (k0, b0) :: updateBox rest k b := rfl

lemma lookupBox_updateBox_self {b : BoxData} :
    ∀ {l : List (List Char × BoxData)} {k : List Char} {b0 : BoxData},
      lookupBox l k = some b0 → lookupBox (updateBox l k b) k = some b
  | [], k, b0, h => by cases h
  | (k0, v0) :: rest, k, b0, h => by
    rw [lookupBox_cons] at h
    rw [updateBox_cons]
    by_cases hk : k0 = k
    · rw [if_pos hk, lookupBox_cons, if_pos hk]
    · rw [if_neg hk] at h
      rw [if_neg hk, lookupBox_cons, if_neg hk]
      exact lookupBox_updateBox_self h

lemma lookupBox_append_self :
    ∀ {l : List (List Char × BoxData)} {k : List Char} {b : BoxData},
      lookupBox l k = none → lookupBox (l ++ [(k, b)]) k = some b
  | [], k, b, _ => by
    rw [List.nil_append, lookupBox_cons, if_pos rfl]
  | (k0, v0) :: rest, k, b, h => by
    rw [lookupBox_cons] at h
    by_cases hk : k0 = k
    · rw [if_pos hk] at h
      cases h
    · rw [if_neg hk] at h
      rw [List.cons_append, lookupBox_cons, if_neg hk]
      exact lookupBox_append_self h

lemma ensureBoxExists_lookup (s : Session) (k : List Char) :
    lookupBox (ensureBoxExists s k).boxes k =
      some (match lookupBox s.boxes k with
        | none => createEmptyBoxData
        | some b => ensureBoxDataShape b) := by
  unfold ensureBoxExists
  cases h : lookupBox s.boxes k with
  | none =>
    simp only
    exact lookupBox_append_self h
  | some b =>
    simp only
    exact lookupBox_updateBox_self h

lemma ensureBoxExists_items (s : Session) (k : List Char) :
    (match lookupBox s.boxes k with
      | none => createEmptyBoxData
      | some b => ensureBoxDataShape b).items = itemsOf s k := by
  unfold itemsOf
  cases h : lookupBox s.boxes k <;> rfl

end BoxAudit

namespace BoxAudit

lemma addItem_itemsOf (now : List Char) (newId : Nat) (tags : List (List Char))
    (s : Session) (cb itemName : List Char) :
    itemsOf (addItem now newId tags s (some cb) itemName) cb =
      (match addMerge (parseQuantity itemName) now (itemsOf s cb) with
       | some items' => items'
       | none => itemsOf s cb ++ [⟨newId, (parseQuantity itemName).name,
           (parseQuantity itemName).qty, now, false, tags⟩]) := by
  have hlk := ensureBoxExists_lookup s cb
  have hbe := ensureBoxExists_items s cb
  unfold addItem
  simp only [hlk, Option.getD_some, hbe]
  cases hm : addMerge (parseQuantity itemName) now (itemsOf s cb) with
  | some items' =>
    simp only
    unfold itemsOf
    simp only [lookupBox_updateBox_self hlk, Option.getD_some]
  | none =>
    simp only
    unfold itemsOf
    simp only [lookupBox_updateBox_self hlk, Option.getD_some]

/-- Counterexample for C1: saving an edited item name equal to another
item's name in the same box produces two items with the same
case-insensitive trimmed name, so editing does not keep names unique. -/
theorem claim_C1_counterexample :
    saveEditedItem
      ⟨none, none, [(("BOX001".toList), ⟨[⟨1, "a".toList, 1, [], false, []⟩,
        ⟨2, "b".toList, 1, [], false, []⟩], false, none, none⟩)]⟩
      ("BOX001".toList) 2 ("a".toList)
      = some ⟨none, none, [(("BOX001".toList), ⟨[⟨1, "a".toList, 1, [], false, []⟩,
        ⟨2, "a".toList, 1, [], false, []⟩], false, none, none⟩)]⟩ ∧
    uniqueNames [⟨1, "a".toList, 1, [], false, []⟩, ⟨2, "b".toList, 1, [], false, []⟩] ∧
    ¬ uniqueNames [⟨1, "a".toList, 1, [], false, []⟩, ⟨2, "a".toList, 1, [], false, []⟩] := by
  refine ⟨by decide, by decide, by decide⟩

/-- Claim C1 as amended: adding preserves the per-box uniqueness of
case-insensitive trimmed names (merging by adding quantities and moving
the merged item to the tail), and adding pen then pen x2 to one
location yields exactly one item with quantity three at the tail; but
saving an edited item name does not re-check uniqueness (see the
counterexample). -/
theorem claim_C1_amended_add_item_unique :
    (∀ (now : List Char) (newId : Nat) (tags : List (List Char))
        (s : Session) (cb itemName : List Char),
      uniqueNames (itemsOf s cb) →
      uniqueNames (itemsOf (addItem now newId tags s (some cb) itemName) cb)) ∧
    itemsOf (addItem ("t2".toList) 2 []
        (addItem ("t1".toList) 1 [] emptySession (some ("BOX001".toList)) ("pen".toList))
        (some ("BOX001".toList)) ("pen x2".toList)) ("BOX001".toList)
      = [⟨1, "pen".toList, 3, "t2".toList, false, []⟩] := by
  constructor
  · intro now newId tags s cb itemName hu
    rw [addItem_itemsOf]
    cases hm : addMerge (parseQuantity itemName) now (itemsOf s cb) with
    | some items' =>
      exact uniqueNames_of_perm (addMerge_names_perm hm) hu
    | none =>
      show uniqueNames (itemsOf s cb ++ [_])
      unfold uniqueNames at hu ⊢
      rw [List.pairwise_append]
      refine ⟨hu, List.pairwise_singleton _ _, ?_⟩
      intro x hx y hy
      simp only [List.mem_singleton] at hy
      rw [hy]
      exact addMerge_none hm x hx
  · decide

end BoxAudit

namespace BoxAudit

/-- Witness for the amended C1 at a concrete one-item box. -/
theorem claim_C1_amended_add_item_unique_witness :
    uniqueNames (itemsOf (addItem ("t".toList) 5 []
      ⟨none, none, [(("BOX001".toList),
        ⟨[⟨1, "a".toList, 1, [], false, []⟩], false, none, none⟩)]⟩
      (some ("BOX001".toList)) ("b x2".toList)) ("BOX001".toList)) :=
  claim_C1_amended_add_item_unique.1 ("t".toList) 5 []
    ⟨none, none, [(("BOX001".toList),
      ⟨[⟨1, "a".toList, 1, [], false, []⟩], false, none, none⟩)]⟩
    ("BOX001".toList) ("b x2".toList) (by decide)

lemma removeFirstById_sound :
    ∀ {l : List Item} {itemId : Nat} {l' : List Item},
      removeFirstById l itemId = some l' →
      ∃ pre it post, l = pre ++ it :: post ∧ it.id = itemId ∧ l' = pre ++ post ∧
        ∀ x ∈ pre, x.id ≠ itemId
  | [], itemId, l', h => by cases h
  | x :: xs, itemId, l', h => by
    unfold removeFirstById at h
    split at h
    · rename_i hx
      simp only [Option.some.injEq] at h
      exact ⟨[], x, xs, rfl, hx, h.symm, by simp⟩
    · rename_i hx
      cases hr : removeFirstById xs itemId with
      | none =>
        rw [hr] at h
        cases h
      | some r =>
        rw [hr] at h
        simp only [Option.map_some', Option.some.injEq] at h
        obtain ⟨pre, it, post, h1, h2, h3, h4⟩ := removeFirstById_sound hr
        refine ⟨x :: pre, it, post, by rw [h1, List.cons_append], h2,
          by rw [← h, h3, List.cons_append], ?_⟩
        intro y hy
        rw [List.mem_cons] at hy
        rcases hy with hy | hy
        · rw [hy]
          exact hx
        · exact h4 y hy

lemma removeFirstById_none :
    ∀ {l : List Item} {itemId : Nat}, removeFirstById l itemId = none →
      ∀ x ∈ l, x.id ≠ itemId
  | [], itemId, _, x, hx => absurd hx (List.not_mem_nil x)
  | y :: ys, itemId, h, x, hx => by
    unfold removeFirstById at h
    split at h
    · cases h
    · rename_i hy
      cases hr : removeFirstById ys itemId with
      | none =>
        rw [List.mem_cons] at hx
        rcases hx with hx | hx
        · rw [hx]
          exact hy
        · exact removeFirstById_none hr x hx
      | some r =>
        rw [hr] at h
        cases h

/-- Claim C4: deleteItem removes the first (unique) item with the
given identifier; a record left empty is deleted from the session
unless it is the active location, which is left as an empty record; a
missing identifier or missing record is a silent no-op. -/
theorem claim_C4_delete_item :
    (∀ (l : List Item) (itemId : Nat) (l' : List Item),
      removeFirstById l itemId = some l' →
      ∃ pre it post, l = pre ++ it :: post ∧ it.id = itemId ∧ l' = pre ++ post ∧
        ∀ x ∈ pre, x.id ≠ itemId) ∧
    (∀ (s : Session) (currentBox : Option (List Char)) (bn : List Char) (itemId : Nat),
      lookupBox s.boxes (normKey bn) = none →
      deleteItem s currentBox bn itemId = s) ∧
    (∀ (s : Session) (currentBox : Option (List Char)) (bn : List Char) (itemId : Nat)
        (b : BoxData),
      lookupBox s.boxes (normKey bn) = some b →
      removeFirstById b.items itemId = none →
      deleteItem s currentBox bn itemId = s) ∧
    (∀ (s : Session) (currentBox : Option (List Char)) (bn : List Char) (itemId : Nat)
        (b : BoxData) (items' : List Item),
      lookupBox s.boxes (normKey bn) = some b →
      removeFirstById b.items itemId = some items' → items' ≠ [] →
      deleteItem s currentBox bn itemId =
        { s with boxes := updateBox s.boxes (normKey bn) ({ b with items := items' }) }) ∧
    (∀ (s : Session) (currentBox : Option (List Char)) (bn : List Char) (itemId : Nat)
        (b : BoxData),
      lookupBox s.boxes (normKey bn) = some b →
      removeFirstById b.items itemId = some [] →
      currentBox ≠ some (normKey bn) →
      deleteItem s currentBox bn itemId =
        { s with boxes := eraseBox s.boxes (normKey bn) }) ∧
    (∀ (s : Session) (bn : List Char) (itemId : Nat) (b : BoxData),
      lookupBox s.boxes (normKey bn) = some b →
      removeFirstById b.items itemId = some [] →
      deleteItem s (some (normKey bn)) bn itemId =
        { s with boxes := updateBox s.boxes (normKey bn) ({ b with items := [] }) }) := by
  refine ⟨fun l itemId l' h => removeFirstById_sound h, ?_, ?_, ?_, ?_, ?_⟩
  · intro s currentBox bn itemId hlk
    simp only [deleteItem, hlk]
  · intro s currentBox bn itemId b hlk hrm
    simp only [deleteItem, hlk, hrm]
  · intro s currentBox bn itemId b items' hlk hrm hne
    simp only [deleteItem, hlk, hrm]
    rw [if_neg (by simp [hne])]
  · intro s currentBox bn itemId b hlk hrm hcb
    simp only [deleteItem, hlk, hrm]
    rw [if_pos ⟨trivial, hcb⟩]
  · intro s bn itemId b hlk hrm
    simp only [deleteItem, hlk, hrm]
    rw [if_neg (by simp)]

/-- Witness for C4: deleting the last item of a non-active location
removes the whole record. -/
theorem claim_C4_delete_item_witness :
    deleteItem ⟨none, none, [(("BOX001".toList),
        ⟨[⟨1, "a".toList, 1, [], false, []⟩], false, none, none⟩)]⟩
      (some ("BOX002".toList)) ("BOX001".toList) 1 =
      ⟨none, none, []⟩ :=
  claim_C4_delete_item.2.2.2.2.1
    ⟨none, none, [(("BOX001".toList),
      ⟨[⟨1, "a".toList, 1, [], false, []⟩], false, none, none⟩)]⟩
    (some ("BOX002".toList)) ("BOX001".toList) 1
    ⟨[⟨1, "a".toList, 1, [], false, []⟩], false, none, none⟩
    (by decide) (by decide) (by decide)

end BoxAudit

namespace BoxAudit

lemma normalizeShelfLocation_eq_of_ne_nil {v : List Char} (hne : v ≠ []) :
    normalizeShelfLocation v =
      (match shelfMatchFull (jsTrim (jsUpper v)) with
      | some (d, a) => some (shelfKey d a)
      | none =>
        match sMatchFull (jsTrim (jsUpper v)) with
        | some (d, a) => some (shelfKey d a)
        | none => none) := by
  unfold normalizeShelfLocation
  rw [if_neg hne]

lemma normalizeShelfLocation_ne_nil {v r : List Char}
    (h : normalizeShelfLocation v = some r) : r ≠ [] := by
  by_cases hv : v = []
  · rw [hv] at h
    cases h
  · rw [normalizeShelfLocation_eq_of_ne_nil hv] at h
    split at h
    · rename_i d a hm
      simp only [Option.some.injEq] at h
      rw [← h]
      exact shelfKey_ne_nil d a
    · split at h
      · rename_i d a hm
        simp only [Option.some.injEq] at h
        rw [← h]
        exact shelfKey_ne_nil d a
      · cases h

lemma normalizeShelfLocation_shelfKey {d a : List Char}
    (hd : d ≠ []) (hdd : ∀ c ∈ d, isDigitChar c = true)
    (ha : ∀ c ∈ a, isAlphaChar c = true)
    (hafix : ∀ c ∈ a, jsUpperChar c = c) :
    normalizeShelfLocation (shelfKey d a) = some (shelfKey d a) := by
  rw [normalizeShelfLocation_eq_of_ne_nil (shelfKey_ne_nil d a)]
  rw [jsUpper_shelfKey hdd hafix, jsTrim_shelfKey hd hdd ha,
    shelfMatchFull_shelfKey hd hdd ha]

lemma setSecondaryLocation_some {s : Session} {cb : List Char} {b : BoxData}
    (hlk : lookupBox s.boxes cb = some b) (v : Option (List Char)) :
    setSecondaryLocation s (some cb) v =
      { s with boxes := updateBox s.boxes cb ({ b with secondaryLocation := if jsTruthyStr v then v else none }) } := by
  simp only [setSecondaryLocation, hlk]

/-- Claim C9: the secondary-location save operation accepts an empty
value as null and a valid shelf as its canonical key (canonical shelf
keys re-validate to themselves), while a non-empty value that is not a
shelf pattern is reported as a validation failure with the session left
untouched. -/
theorem claim_C9_secondary_location_validation :
    (∀ (s : Session) (cb : List Char) (b : BoxData) (raw : List Char),
      lookupBox s.boxes cb = some b → jsTrim raw ≠ [] →
      normalizeShelfLocation (jsTrim raw) = none →
      saveSecondaryLocation s (some cb) raw = (s, true)) ∧
    (∀ (s : Session) (cb : List Char) (b : BoxData) (raw : List Char),
      lookupBox s.boxes cb = some b → jsTrim raw = [] →
      saveSecondaryLocation s (some cb) raw =
        ({ s with boxes := updateBox s.boxes cb ({ b with secondaryLocation := none }) },
          false)) ∧
    (∀ (s : Session) (cb : List Char) (b : BoxData) (raw shelf : List Char),
      lookupBox s.boxes cb = some b → jsTrim raw ≠ [] →
      normalizeShelfLocation (jsTrim raw) = some shelf →
      saveSecondaryLocation s (some cb) raw =
        ({ s with boxes := updateBox s.boxes cb ({ b with secondaryLocation := some shelf }) },
          false)) ∧
    (∀ d a : List Char, d ≠ [] → (∀ c ∈ d, isDigitChar c = true) →
      (∀ c ∈ a, isAlphaChar c = true) → (∀ c ∈ a, jsUpperChar c = c) →
      normalizeShelfLocation (shelfKey d a) = some (shelfKey d a)) := by
  refine ⟨?_, ?_, ?_, fun d a hd hdd ha hafix =>
    normalizeShelfLocation_shelfKey hd hdd ha hafix⟩
  · intro s cb b raw hlk hne hnorm
    simp only [saveSecondaryLocation, hlk, hnorm]
    rw [if_neg hne]
  · intro s cb b raw hlk hraw
    simp only [saveSecondaryLocation, hlk]
    rw [if_pos hraw, setSecondaryLocation_some hlk]
    rfl
  · intro s cb b raw shelf hlk hne hnorm
    simp only [saveSecondaryLocation, hlk, hnorm]
    rw [if_neg hne, setSecondaryLocation_some hlk]
    have htr : jsTruthyStr (some shelf) = true := by
      unfold jsTruthyStr
      simp only [Bool.not_eq_true']
      rw [← Bool.not_eq_true]
      intro hsh
      exact normalizeShelfLocation_ne_nil hnorm (by
        rwa [List.isEmpty_iff] at hsh)
    rw [htr]
    simp

/-- Witness for C9 at a concrete invalid value and a concrete valid
shelf. -/
theorem claim_C9_secondary_location_validation_witness :
    saveSecondaryLocation ⟨none, none, [(("BOX001".toList), createEmptyBoxData)]⟩
      (some ("BOX001".toList)) ("garbage".toList) =
      (⟨none, none, [(("BOX001".toList), createEmptyBoxData)]⟩, true) ∧
    normalizeShelfLocation (shelfKey ("2".toList) ("C".toList)) =
      some (shelfKey ("2".toList) ("C".toList)) :=
  ⟨claim_C9_secondary_location_validation.1
      ⟨none, none, [(("BOX001".toList), createEmptyBoxData)]⟩
      ("BOX001".toList) createEmptyBoxData ("garbage".toList)
      (by decide) (by decide) (by decide),
   claim_C9_secondary_location_validation.2.2.2 ("2".toList) ("C".toList)
      (by decide) (by decide) (by decide) (by decide)⟩

end BoxAudit

namespace BoxAudit

/-- The claimed invariant: completedAt is present exactly when the
record is completed. -/
def completedInv (b : BoxData) : Prop := b.completedAt.isSome ↔ b.completed = true

instance (b : BoxData) : Decidable (completedInv b) := by
  unfold completedInv
  infer_instance

/-- The invariant together with non-emptiness of the stored timestamp
(as every timestamp the program writes is a non-empty ISO string). -/
def strongInv (b : BoxData) : Prop :=
  match b.completedAt with
  | none => b.completed = false
  | some t => b.completed = true ∧ t ≠ []

instance (b : BoxData) : Decidable (strongInv b) := by
  unfold strongInv
  cases h : b.completedAt with
  | none => infer_instance
  | some t => infer_instance

lemma strongInv_ensure {b : BoxData} (h : strongInv b) : ensureBoxDataShape b = b := by
  obtain ⟨items, completed, completedAt, sec⟩ := b
  unfold strongInv at h
  unfold ensureBoxDataShape
  cases completedAt with
  | none => rfl
  | some t =>
    simp only at h
    cases t with
    | nil => exact absurd rfl h.2
    | cons c cs => rfl

lemma completedInv_of_strongInv {b : BoxData} (h : strongInv b) : completedInv b := by
  unfold strongInv at h
  unfold completedInv
  cases hat : b.completedAt with
  | none =>
    rw [hat] at h
    simp [h]
  | some t =>
    rw [hat] at h
    simp [h.1]

lemma strongInv_fresh {b : BoxData} (h : strongInv b) : strongInv (freshEntry b) := by
  obtain ⟨items, completed, completedAt, sec⟩ := b
  unfold strongInv at h ⊢
  unfold freshEntry jsOrStr jsTruthyStr
  cases completedAt with
  | none => simpa using h
  | some t =>
    simp only at h
    obtain ⟨hc, ht⟩ := h
    have : t.isEmpty = false := by
      cases t with
      | nil => exact absurd rfl ht
      | cons c cs => rfl
    simp [this, hc, ht]

lemma strongInv_merge {oldB newB : BoxData} (ho : strongInv oldB) (hn : strongInv newB) :
    strongInv (mergeBoxData oldB newB) := by
  unfold mergeBoxData
  rw [strongInv_ensure ho]
  unfold strongInv at ho hn ⊢
  by_cases hc : (newB.completed || oldB.completed) = true
  · simp only [hc, if_true]
    cases hat : oldB.completedAt with
    | some t =>
      rw [hat] at ho
      unfold jsOrStr jsTruthyStr
      have : t.isEmpty = false := by
        cases t with
        | nil => exact absurd rfl ho.2
        | cons c cs => rfl
      simp [this, ho.2]
    | none =>
      rw [hat] at ho
      have hnc : newB.completed = true := by
        rcases Bool.or_eq_true_iff.mp hc with h | h
        · exact h
        · rw [ho] at h
          cases h
      cases hat2 : newB.completedAt with
      | none =>
        rw [hat2] at hn
        rw [hnc] at hn
        cases hn
      | some t =>
        rw [hat2] at hn
        unfold jsOrStr jsTruthyStr
        simp [hn.2]
  · simp only [hc, if_false]
    have hoc : oldB.completed = false := by
      cases h : oldB.completed
      · rfl
      · exact absurd (by rw [h, Bool.or_true]) hc
    cases hat : oldB.completedAt with
    | none => simpa using hoc
    | some t =>
      rw [hat] at ho
      rw [ho.1] at hoc
      cases hoc

end BoxAudit

namespace BoxAudit

lemma insertNorm_strongInv {k : List Char} {b : BoxData} :
    ∀ {acc : List (List Char × BoxData)},
      (∀ kb ∈ acc, strongInv kb.2) → strongInv b →
      ∀ kb ∈ insertNorm acc k b, strongInv kb.2
  | [], _, hb, kb, hkb => by
    unfold insertNorm at hkb
    simp only [List.mem_singleton] at hkb
    rw [hkb]
    exact strongInv_fresh hb
  | (k0, b0) :: rest, hacc, hb, kb, hkb => by
    unfold insertNorm at hkb
    split at hkb
    · rw [List.mem_cons] at hkb
      rcases hkb with hkb | hkb
      · rw [hkb]
        exact strongInv_merge (hacc (k0, b0) (List.mem_cons_self _ _)) hb
      · exact hacc kb (List.mem_cons_of_mem _ hkb)
    · rw [List.mem_cons] at hkb
      rcases hkb with hkb | hkb
      · rw [hkb]
        exact hacc (k0, b0) (List.mem_cons_self _ _)
      · exact insertNorm_strongInv
          (fun x hx => hacc x (List.mem_cons_of_mem _ hx)) hb kb hkb

lemma normalizeBoxesFold_strongInv_aux :
    ∀ (l acc : List (List Char × BoxData)),
      (∀ kb ∈ acc, strongInv kb.2) → (∀ kb ∈ l, strongInv kb.2) →
      ∀ kb ∈ l.foldl (fun acc kb => insertNorm acc (normKey kb.1) (ensureBoxDataShape kb.2)) acc,
        strongInv kb.2
  | [], acc, hacc, _, kb, hkb => hacc kb hkb
  | (k0, b0) :: rest, acc, hacc, hl, kb, hkb => by
    rw [List.foldl_cons] at hkb
    have hb0 : strongInv b0 := hl (k0, b0) (List.mem_cons_self _ _)
    have hb0' : strongInv (ensureBoxDataShape b0) := by
      rw [strongInv_ensure hb0]
      exact hb0
    exact normalizeBoxesFold_strongInv_aux rest _
      (fun x hx => insertNorm_strongInv hacc hb0' x hx)
      (fun x hx => hl x (List.mem_cons_of_mem _ hx)) kb hkb

lemma normalizeSessionBoxes_strongInv {s : Session}
    (h : ∀ kb ∈ s.boxes, strongInv kb.2) :
    ∀ kb ∈ (normalizeSessionBoxes s).boxes, strongInv kb.2 := by
  intro kb hkb
  unfold normalizeSessionBoxes normalizeItemQuantities at hkb
  simp only [List.mem_map] at hkb
  obtain ⟨kb0, hkb0, hkbeq⟩ := hkb
  have h0 : strongInv kb0.2 :=
    normalizeBoxesFold_strongInv_aux s.boxes [] (by simp) h kb0 hkb0
  rw [← hkbeq]
  unfold strongInv at h0 ⊢
  exact h0

/-- The record written by toggleBoxComplete: completed flipped,
completedAt stamped on completion and cleared on reopening. -/
def toggledBox (now : List Char) (b : BoxData) : BoxData :=
  { b with
    completed := !b.completed
    completedAt := if !b.completed then some now else none }

/-- Counterexample for C5: shape repair passes through a record with a
non-null completedAt and completed false (and likewise produces
completed true with a null completedAt from a falsy timestamp), so the
claimed iff does not hold for every record reachable through shape
repair on load. -/
theorem claim_C5_counterexample :
    ensureBoxDataShape ⟨[], false, some ("T".toList), none⟩ =
      ⟨[], false, some ("T".toList), none⟩ ∧
    ¬ completedInv ⟨[], false, some ("T".toList), none⟩ ∧
    ensureBoxDataShape ⟨[], true, some [], none⟩ = ⟨[], true, none, none⟩ ∧
    ¬ completedInv ⟨[], true, none, none⟩ := by
  refine ⟨rfl, by decide, rfl, by decide⟩

/-- Claim C5 as amended: toggleBoxComplete flips completed and sets
completedAt exactly on completion and clears it on reopening, so its
result always satisfies the iff; key normalization and merging preserve
the iff whenever every stored record satisfies it with a non-empty
timestamp; but shape repair on load does not establish the iff for
malformed records (see the counterexample). -/
theorem claim_C5_amended_completed_iff :
    (∀ (now : List Char) (s : Session) (bn : List Char) (b : BoxData),
      lookupBox s.boxes (normKey bn) = some b →
      toggleBoxComplete now s bn =
        { s with boxes := updateBox s.boxes (normKey bn) (toggledBox now b) } ∧
      completedInv (toggledBox now b) ∧
      (toggledBox now b).completed = !b.completed ∧
      (b.completed = false → (toggledBox now b).completedAt = some now) ∧
      (b.completed = true → (toggledBox now b).completedAt = none)) ∧
    (∀ s : Session, (∀ kb ∈ s.boxes, strongInv kb.2) →
      ∀ kb ∈ (normalizeSessionBoxes s).boxes, completedInv kb.2) := by
  constructor
  · intro now s bn b hlk
    refine ⟨by simp only [toggleBoxComplete, toggledBox, hlk], ?_, rfl, ?_, ?_⟩
    · unfold completedInv toggledBox
      cases hc : b.completed <;> simp
    · intro hc
      unfold toggledBox
      rw [hc]
      rfl
    · intro hc
      unfold toggledBox
      rw [hc]
      rfl
  · intro s h kb hkb
    exact completedInv_of_strongInv (normalizeSessionBoxes_strongInv h kb hkb)

/-- Witness for the amended C5 at a concrete record and session. -/
theorem claim_C5_amended_completed_iff_witness :
    toggleBoxComplete ("T1".toList)
      ⟨none, none, [(("BOX001".toList), createEmptyBoxData)]⟩ ("box1".toList) =
      ⟨none, none, [(("BOX001".toList), ⟨[], true, some ("T1".toList), none⟩)]⟩ ∧
    ∀ kb ∈ (normalizeSessionBoxes
        ⟨none, none, [(("Box42".toList), ⟨[], true, some ("T0".toList), none⟩)]⟩).boxes,
      completedInv kb.2 := by
  constructor
  · have h := (claim_C5_amended_completed_iff.1 ("T1".toList)
      ⟨none, none, [(("BOX001".toList), createEmptyBoxData)]⟩ ("box1".toList)
      createEmptyBoxData (by decide)).1
    rw [h]
    decide
  · exact claim_C5_amended_completed_iff.2
      ⟨none, none, [(("Box42".toList), ⟨[], true, some ("T0".toList), none⟩)]⟩
      (by decide)

end BoxAudit

namespace BoxAudit

lemma normItem_idem (it : Item) : normItem (normItem it) = normItem it := by
  by_cases h01 : it.qty = 1 ∨ it.qty = 0
  · by_cases hp : (parseQuantity it.name).qty > 1
    · have h1 : normItem it = { it with
          name := (parseQuantity it.name).name
          qty := (parseQuantity it.name).qty } := by
        unfold normItem
        rw [if_pos h01, if_pos hp]
      rw [h1]
      unfold normItem
      rw [if_neg (by
        show ¬((parseQuantity it.name).qty = 1 ∨ (parseQuantity it.name).qty = 0)
        omega)]
    · have h1 : normItem it = { it with qty := 1 } := by
        unfold normItem
        rw [if_pos h01, if_neg hp]
        by_cases h0 : it.qty = 0
        · rw [if_pos h0]
        · rw [if_neg h0]
          have hq1 : it.qty = 1 := by
            cases h01 with
            | inl h => exact h
            | inr h => exact absurd h h0
          obtain ⟨i, nm, q, aa, dup, tg⟩ := it
          simp only at hq1
          rw [hq1]
      rw [h1]
      unfold normItem
      rw [if_pos (Or.inl rfl), if_neg hp, if_neg (by
        show ¬((1 : Nat) = 0)
        decide)]
  · have h1 : normItem it = it := by
      unfold normItem
      rw [if_neg h01]
    rw [h1, h1]

lemma normItem_id (it : Item) : (normItem it).id = it.id := by
  unfold normItem
  by_cases h01 : it.qty = 1 ∨ it.qty = 0
  · rw [if_pos h01]
    by_cases hp : (parseQuantity it.name).qty > 1
    · rw [if_pos hp]
    · rw [if_neg hp]
      by_cases h0 : it.qty = 0
      · rw [if_pos h0]
      · rw [if_neg h0]
  · rw [if_neg h01]

lemma map_normItem_idem (l : List Item) :
    (l.map normItem).map normItem = l.map normItem := by
  rw [List.map_map]
  apply List.map_congr_left
  intro it _
  exact normItem_idem it

/-- Cleanliness of the two optional string fields: the program never
stores the (falsy) empty string there. -/
def cleanBox (b : BoxData) : Prop :=
  b.completedAt ≠ some [] ∧ b.secondaryLocation ≠ some []

lemma ensure_completedAt (b : BoxData) :
    (ensureBoxDataShape b).completedAt ≠ some [] := by
  unfold ensureBoxDataShape
  cases h : b.completedAt with
  | none => simp
  | some t =>
    cases t with
    | nil => simp
    | cons c cs => simp

lemma ensure_eq_self {b : BoxData} (h : b.completedAt ≠ some []) :
    ensureBoxDataShape b = b := by
  obtain ⟨items, completed, completedAt, sec⟩ := b
  unfold ensureBoxDataShape
  simp only at h
  cases completedAt with
  | none => rfl
  | some t =>
    cases t with
    | nil => exact absurd rfl h
    | cons c cs => rfl

lemma freshEntry_eq_self {b : BoxData} (h : cleanBox b) : freshEntry b = b := by
  obtain ⟨items, completed, completedAt, sec⟩ := b
  obtain ⟨h1, h2⟩ := h
  unfold freshEntry jsOrStr jsTruthyStr
  simp only at h1 h2 ⊢
  congr 1
  · exact Bool.or_false completed
  · cases completedAt with
    | none => rfl
    | some t =>
      cases t with
      | nil => exact absurd rfl h1
      | cons c cs => rfl
  · cases sec with
    | none => rfl
    | some t =>
      cases t with
      | nil => exact absurd rfl h2
      | cons c cs => rfl

lemma cleanBox_fresh (b : BoxData) : cleanBox (freshEntry b) := by
  unfold cleanBox freshEntry jsOrStr jsTruthyStr
  constructor
  · cases h : b.completedAt with
    | none => simp
    | some t =>
      cases t with
      | nil => simp
      | cons c cs => simp
  · cases h : b.secondaryLocation with
    | none => simp
    | some t =>
      cases t with
      | nil => simp
      | cons c cs => simp

lemma cleanBox_merge {oldB newB : BoxData} (ho : cleanBox oldB)
    (hn : newB.completedAt ≠ some []) : cleanBox (mergeBoxData oldB newB) := by
  obtain ⟨h1, h2⟩ := ho
  unfold mergeBoxData
  rw [ensure_eq_self h1]
  constructor
  · simp only
    split
    · unfold jsOrStr jsTruthyStr
      split
      · exact h1
      · exact hn
    · exact h1
  · simp only
    split
    · rename_i hcond
      intro hc
      rw [hc] at hcond
      simp [jsTruthyStr] at hcond
    · exact h2

end BoxAudit

namespace BoxAudit

lemma norm_some_of_ne_nil {s : List Char} (hne : s ≠ []) :
    ∃ r, normalizeBoxNumber s = some r := by
  rw [normalizeBoxNumber_eq_of_ne_nil hne]
  cases h1 : shelfMatchFull (jsTrim (jsUpper s)) with
  | some pr => exact ⟨shelfKey pr.1 pr.2, by rw [show pr = (pr.1, pr.2) from rfl]⟩
  | none =>
    cases h2 : sMatchFull (jsTrim (jsUpper s)) with
    | some pr => exact ⟨shelfKey pr.1 pr.2, by rw [show pr = (pr.1, pr.2) from rfl]⟩
    | none =>
      cases h3 : firstDigitRun (jsTrim (jsUpper s)) with
      | some ds => exact ⟨_, rfl⟩
      | none => exact ⟨_, rfl⟩

lemma normKey_fixed {k : List Char} (hnb : ∃ c ∈ k, isSpaceJS c = false) :
    normKey (normKey k) = normKey k := by
  have hne : k ≠ [] := by
    intro h
    obtain ⟨c, hc, _⟩ := hnb
    rw [h] at hc
    cases hc
  obtain ⟨r, hr⟩ := norm_some_of_ne_nil hne
  have h1 : normKey k = r := by
    unfold normKey
    rw [hr]
    rfl
  rw [h1]
  unfold normKey
  rw [norm_fixed hnb hr]
  rfl

/-- Keys of a boxes object, in entry order. -/
def keysOf (l : List (List Char × BoxData)) : List (List Char) := l.map Prod.fst

lemma insertNorm_of_not_mem {k : List Char} {b : BoxData} :
    ∀ {acc : List (List Char × BoxData)}, k ∉ keysOf acc →
      insertNorm acc k b = acc ++ [(k, freshEntry b)]
  | [], _ => rfl
  | (k0, b0) :: rest, h => by
    unfold insertNorm
    have hk : k0 ≠ k := by
      intro hk
      apply h
      rw [hk]
      exact List.mem_cons_self _ _
    rw [if_neg hk, List.cons_append]
    have hrest : k ∉ keysOf rest := fun hr => h (List.mem_cons_of_mem _ hr)
    rw [insertNorm_of_not_mem hrest]

lemma keysOf_insertNorm {k : List Char} {b : BoxData} :
    ∀ (acc : List (List Char × BoxData)),
      keysOf (insertNorm acc k b) =
        if k ∈ keysOf acc then keysOf acc else keysOf acc ++ [k]
  | [] => rfl
  | (k0, b0) :: rest => by
    unfold insertNorm
    by_cases hk : k0 = k
    · rw [if_pos hk]
      have hmem : k ∈ keysOf ((k0, b0) :: rest) := by
        show k ∈ k0 :: keysOf rest
        rw [hk]
        exact List.mem_cons_self _ _
      rw [if_pos hmem]
      rfl
    · rw [if_neg hk]
      show k0 :: keysOf (insertNorm rest k b) = _
      rw [keysOf_insertNorm rest]
      by_cases hmem : k ∈ keysOf rest
      · rw [if_pos hmem, if_pos (by
          show k ∈ k0 :: keysOf rest
          exact List.mem_cons_of_mem _ hmem)]
        rfl
      · rw [if_neg hmem, if_neg (by
          show k ∉ k0 :: keysOf rest
          intro hc
          rcases List.mem_cons.mp hc with hc | hc
          · exact hk hc.symm
          · exact hmem hc)]
        rfl

lemma keysOf_nodup_insertNorm {k : List Char} {b : BoxData}
    {acc : List (List Char × BoxData)} (h : (keysOf acc).Nodup) :
    (keysOf (insertNorm acc k b)).Nodup := by
  rw [keysOf_insertNorm acc]
  by_cases hmem : k ∈ keysOf acc
  · rw [if_pos hmem]
    exact h
  · rw [if_neg hmem]
    rw [List.nodup_append]
    exact ⟨h, List.nodup_singleton k, by simpa using hmem⟩

lemma keysOf_mem_insertNorm {k x : List Char} {b : BoxData}
    {acc : List (List Char × BoxData)} (h : x ∈ keysOf (insertNorm acc k b)) :
    x ∈ keysOf acc ∨ x = k := by
  rw [keysOf_insertNorm acc] at h
  by_cases hmem : k ∈ keysOf acc
  · rw [if_pos hmem] at h
    exact Or.inl h
  · rw [if_neg hmem] at h
    rw [List.mem_append] at h
    rcases h with h | h
    · exact Or.inl h
    · right
      simpa using h

end BoxAudit

namespace BoxAudit

lemma insertNorm_clean {k : List Char} {b : BoxData} (hb : b.completedAt ≠ some []) :
    ∀ {acc : List (List Char × BoxData)}, (∀ kb ∈ acc, cleanBox kb.2) →
      ∀ kb ∈ insertNorm acc k b, cleanBox kb.2
  | [], _, kb, hkb => by
    unfold insertNorm at hkb
    simp only [List.mem_singleton] at hkb
    rw [hkb]
    exact cleanBox_fresh b
  | (k0, b0) :: rest, hacc, kb, hkb => by
    unfold insertNorm at hkb
    split at hkb
    · rw [List.mem_cons] at hkb
      rcases hkb with hkb | hkb
      · rw [hkb]
        exact cleanBox_merge (hacc (k0, b0) (List.mem_cons_self _ _)) hb
      · exact hacc kb (List.mem_cons_of_mem _ hkb)
    · rw [List.mem_cons] at hkb
      rcases hkb with hkb | hkb
      · rw [hkb]
        exact hacc (k0, b0) (List.mem_cons_self _ _)
      · exact insertNorm_clean hb
          (fun x hx => hacc x (List.mem_cons_of_mem _ hx)) kb hkb

lemma fold_clean :
    ∀ (l acc : List (List Char × BoxData)), (∀ kb ∈ acc, cleanBox kb.2) →
      ∀ kb ∈ l.foldl (fun acc kb => insertNorm acc (normKey kb.1) (ensureBoxDataShape kb.2)) acc,
        cleanBox kb.2
  | [], acc, hacc, kb, hkb => hacc kb hkb
  | (k0, b0) :: rest, acc, hacc, kb, hkb => by
    rw [List.foldl_cons] at hkb
    exact fold_clean rest _
      (fun x hx => insertNorm_clean (ensure_completedAt b0) hacc x hx) kb hkb

lemma fold_nodup :
    ∀ (l acc : List (List Char × BoxData)), (keysOf acc).Nodup →
      (keysOf (l.foldl
        (fun acc kb => insertNorm acc (normKey kb.1) (ensureBoxDataShape kb.2)) acc)).Nodup
  | [], acc, hacc => hacc
  | (k0, b0) :: rest, acc, hacc => by
    rw [List.foldl_cons]
    exact fold_nodup rest _ (keysOf_nodup_insertNorm hacc)

lemma fold_keys :
    ∀ (l acc : List (List Char × BoxData)) (x : List Char),
      x ∈ keysOf (l.foldl
        (fun acc kb => insertNorm acc (normKey kb.1) (ensureBoxDataShape kb.2)) acc) →
      x ∈ keysOf acc ∨ ∃ kb ∈ l, x = normKey kb.1
  | [], acc, x, hx => Or.inl hx
  | (k0, b0) :: rest, acc, x, hx => by
    rw [List.foldl_cons] at hx
    rcases fold_keys rest _ x hx with h | ⟨kb, hkb, hkx⟩
    · rcases keysOf_mem_insertNorm h with h | h
      · exact Or.inl h
      · exact Or.inr ⟨(k0, b0), List.mem_cons_self _ _, h⟩
    · exact Or.inr ⟨kb, List.mem_cons_of_mem _ hkb, hkx⟩

lemma fold_fixed_keys :
    ∀ (l2 acc : List (List Char × BoxData)),
      (∀ kb ∈ l2, normKey kb.1 = kb.1) →
      (∀ kb ∈ l2, ensureBoxDataShape kb.2 = kb.2 ∧ freshEntry kb.2 = kb.2) →
      (keysOf acc ++ keysOf l2).Nodup →
      l2.foldl (fun acc kb => insertNorm acc (normKey kb.1) (ensureBoxDataShape kb.2)) acc =
        acc ++ l2
  | [], acc, _, _, _ => by
    rw [List.foldl_nil, List.append_nil]
  | (k0, b0) :: rest, acc, hkeys, hid, hnd => by
    rw [List.foldl_cons]
    have h1 : normKey k0 = k0 := hkeys (k0, b0) (List.mem_cons_self _ _)
    have h2 := hid (k0, b0) (List.mem_cons_self _ _)
    rw [h1, h2.1]
    have hnotin : k0 ∉ keysOf acc := by
      rw [List.nodup_append] at hnd
      intro hin
      exact hnd.2.2 hin (by exact List.mem_cons_self _ _)
    rw [insertNorm_of_not_mem hnotin, h2.2]
    have hnd2 : (keysOf (acc ++ [(k0, b0)]) ++ keysOf rest).Nodup := by
      have he : keysOf (acc ++ [(k0, b0)]) ++ keysOf rest =
          keysOf acc ++ keysOf ((k0, b0) :: rest) := by
        unfold keysOf
        rw [List.map_append, List.append_assoc]
        rfl
      rw [he]
      exact hnd
    rw [fold_fixed_keys rest (acc ++ [(k0, b0)])
      (fun x hx => hkeys x (List.mem_cons_of_mem _ hx))
      (fun x hx => hid x (List.mem_cons_of_mem _ hx)) hnd2]
    rw [List.append_assoc, List.singleton_append]

lemma keysOf_append (l1 l2 : List (List Char × BoxData)) :
    keysOf (l1 ++ l2) = keysOf l1 ++ keysOf l2 := by
  unfold keysOf
  rw [List.map_append]

lemma keysOf_itemPass (l : List (List Char × BoxData)) :
    keysOf (normalizeItemQuantities l) = keysOf l := by
  unfold keysOf normalizeItemQuantities
  rw [List.map_map]
  rfl

lemma itemPass_clean {l : List (List Char × BoxData)}
    (h : ∀ kb ∈ l, cleanBox kb.2) :
    ∀ kb ∈ normalizeItemQuantities l, cleanBox kb.2 := by
  intro kb hkb
  unfold normalizeItemQuantities at hkb
  rw [List.mem_map] at hkb
  obtain ⟨kb0, hkb0, hkbeq⟩ := hkb
  rw [← hkbeq]
  exact h kb0 hkb0

lemma itemPass_idem (l : List (List Char × BoxData)) :
    normalizeItemQuantities (normalizeItemQuantities l) = normalizeItemQuantities l := by
  unfold normalizeItemQuantities
  rw [List.map_map]
  apply List.map_congr_left
  intro kb _
  show (kb.1, _) = (kb.1, _)
  rw [Prod.mk.injEq]
  refine ⟨rfl, ?_⟩
  show ({ kb.2 with items := _ } : BoxData) = { kb.2 with items := kb.2.items.map normItem }
  rw [map_normItem_idem]

end BoxAudit

namespace BoxAudit

lemma jsTruthyStr_some {t : List Char} (h : t ≠ []) : jsTruthyStr (some t) = true := by
  unfold jsTruthyStr
  cases t with
  | nil => exact absurd rfl h
  | cons c cs => rfl

lemma jsOrStr_eq {a b : Option (List Char)} (h : a ≠ some []) :
    jsOrStr a b = if a = none then b else a := by
  unfold jsOrStr
  cases a with
  | none => rfl
  | some t =>
    cases t with
    | nil => exact absurd rfl h
    | cons c cs =>
      rw [jsTruthyStr_some (by simp), if_pos rfl, if_neg (by simp)]

lemma mergeBoxData_clean_eq {b1 b2 : BoxData}
    (h1A : b1.completedAt ≠ some []) (h1S : b1.secondaryLocation ≠ some [])
    (h2S : b2.secondaryLocation ≠ some []) :
    mergeBoxData b1 b2 = ⟨b1.items ++ b2.items,
      b1.completed || b2.completed,
      (if b1.completed || b2.completed then
        (if b1.completedAt = none then b2.completedAt else b1.completedAt)
       else b1.completedAt),
      (if b1.secondaryLocation = none then b2.secondaryLocation
       else b1.secondaryLocation)⟩ := by
  unfold mergeBoxData
  rw [ensure_eq_self h1A]
  show BoxData.mk (b1.items ++ b2.items)
      (if (b2.completed || b1.completed) = true then true else b1.completed)
      (if (b2.completed || b1.completed) = true
        then jsOrStr b1.completedAt b2.completedAt else b1.completedAt)
      (if (jsTruthyStr b2.secondaryLocation && !jsTruthyStr b1.secondaryLocation) = true
        then b2.secondaryLocation else b1.secondaryLocation) = _
  have hcomp : (if (b2.completed || b1.completed) = true then true else b1.completed)
      = (b1.completed || b2.completed) := by
    cases b1.completed <;> cases b2.completed <;> rfl
  have hor : (b2.completed || b1.completed) = (b1.completed || b2.completed) :=
    Bool.or_comm _ _
  have hat : (if (b2.completed || b1.completed) = true
        then jsOrStr b1.completedAt b2.completedAt else b1.completedAt)
      = (if (b1.completed || b2.completed) = true
        then (if b1.completedAt = none then b2.completedAt else b1.completedAt)
        else b1.completedAt) := by
    rw [hor, jsOrStr_eq h1A]
  have hsec : (if (jsTruthyStr b2.secondaryLocation &&
        !jsTruthyStr b1.secondaryLocation) = true
        then b2.secondaryLocation else b1.secondaryLocation)
      = (if b1.secondaryLocation = none then b2.secondaryLocation
        else b1.secondaryLocation) := by
    cases hb1 : b1.secondaryLocation with
    | some t =>
      have ht : t ≠ [] := by
        intro h
        rw [h] at hb1
        exact h1S hb1
      rw [jsTruthyStr_some ht]
      simp
    | none =>
      show (if (jsTruthyStr b2.secondaryLocation && !jsTruthyStr none) = true
        then b2.secondaryLocation else none) = b2.secondaryLocation
      cases hb2 : b2.secondaryLocation with
      | none => rfl
      | some u =>
        have hu : u ≠ [] := by
          intro h
          rw [h] at hb2
          exact h2S hb2
        rw [jsTruthyStr_some hu]
        rfl
  rw [hcomp, hat, hsec]

lemma normalizeBoxesFold_fixed {l2 : List (List Char × BoxData)}
    (hkeys : ∀ kb ∈ l2, normKey kb.1 = kb.1)
    (hid : ∀ kb ∈ l2, ensureBoxDataShape kb.2 = kb.2 ∧ freshEntry kb.2 = kb.2)
    (hnd : (keysOf l2).Nodup) : normalizeBoxesFold l2 = l2 := by
  unfold normalizeBoxesFold
  rw [fold_fixed_keys l2 [] hkeys hid (by exact hnd)]
  rw [List.nil_append]

/-- Key normalization run twice equals one run, for a session whose
stored keys each contain a non-whitespace character. -/
lemma normalizeSessionBoxes_idem {s : Session}
    (hkeys : ∀ kb ∈ s.boxes, ∃ c ∈ kb.1, isSpaceJS c = false) :
    normalizeSessionBoxes (normalizeSessionBoxes s) = normalizeSessionBoxes s := by
  have hclean1 : ∀ kb ∈ normalizeBoxesFold s.boxes, cleanBox kb.2 :=
    fold_clean s.boxes [] (by intro kb hkb; cases hkb)
  have hnodup1 : (keysOf (normalizeBoxesFold s.boxes)).Nodup :=
    fold_nodup s.boxes [] List.nodup_nil
  have hkeys1 : ∀ kb ∈ normalizeBoxesFold s.boxes, normKey kb.1 = kb.1 := by
    intro kb hkb
    have hx : kb.1 ∈ keysOf (normalizeBoxesFold s.boxes) :=
      List.mem_map_of_mem Prod.fst hkb
    rcases fold_keys s.boxes [] kb.1 hx with h | ⟨kb0, hkb0, hx0⟩
    · cases h
    · rw [hx0]
      exact normKey_fixed (hkeys kb0 hkb0)
  have hkeysP : ∀ kb ∈ normalizeItemQuantities (normalizeBoxesFold s.boxes),
      normKey kb.1 = kb.1 := by
    intro kb hkb
    unfold normalizeItemQuantities at hkb
    rw [List.mem_map] at hkb
    obtain ⟨kb0, hkb0, hkbeq⟩ := hkb
    rw [← hkbeq]
    exact hkeys1 kb0 hkb0
  have hcleanP : ∀ kb ∈ normalizeItemQuantities (normalizeBoxesFold s.boxes),
      cleanBox kb.2 := itemPass_clean hclean1
  have hfold2 : normalizeBoxesFold (normalizeItemQuantities (normalizeBoxesFold s.boxes)) =
      normalizeItemQuantities (normalizeBoxesFold s.boxes) :=
    normalizeBoxesFold_fixed hkeysP
      (fun kb hkb => ⟨ensure_eq_self (hcleanP kb hkb).1, freshEntry_eq_self (hcleanP kb hkb)⟩)
      (by rw [keysOf_itemPass]; exact hnodup1)
  show normalizeSessionBoxes { s with boxes := normalizeItemQuantities (normalizeBoxesFold s.boxes) } = _
  unfold normalizeSessionBoxes
  simp only
  rw [hfold2, itemPass_idem]

end BoxAudit

namespace BoxAudit

/-- Counterexample for C6: first, a session holding an empty-string
key is not a fixed point of a second normalization run (the empty key
normalizes to null, stringified to the key null, which the second run
re-keys to NULL); second, when two completed records merge, the
completedAt kept is the first one in key-encounter order (2025 here),
not the temporally earliest non-null stamp (2024). -/
theorem claim_C6_counterexample :
    (normalizeSessionBoxes (normalizeSessionBoxes ⟨none, none, [([], createEmptyBoxData)]⟩)
      ≠ normalizeSessionBoxes ⟨none, none, [([], createEmptyBoxData)]⟩) ∧
    (normalizeSessionBoxes ⟨none, none,
        [(("BOX042".toList), ⟨[], true, some ("2025".toList), none⟩),
         (("Box42".toList), ⟨[], true, some ("2024".toList), none⟩)]⟩).boxes =
      [(("BOX042".toList), ⟨[], true, some ("2025".toList), none⟩)] ∧
    ("2025".toList) ≠ ("2024".toList) := by
  refine ⟨by decide, by decide, by decide⟩

/-- Claim C6 as amended: a second normalization run is a no-op on the
output of a first run whenever every stored key contains a
non-whitespace character; merging two distinct stored keys that
normalize to the same canonical key concatenates their item sequences
first-seen-first (ids untouched by the quantity pass), ORs their
completed flags, and keeps the FIRST (in key-encounter order) non-null
completedAt and the first non-null secondaryLocation. -/
theorem claim_C6_amended_normalize_all :
    (∀ s : Session, (∀ kb ∈ s.boxes, ∃ c ∈ kb.1, isSpaceJS c = false) →
      normalizeSessionBoxes (normalizeSessionBoxes s) = normalizeSessionBoxes s) ∧
    (∀ (si st : Option (List Char)) (k1 k2 : List Char) (b1 b2 : BoxData),
      k1 ≠ k2 → normKey k1 = normKey k2 →
      b1.completedAt ≠ some [] → b1.secondaryLocation ≠ some [] →
      b2.completedAt ≠ some [] → b2.secondaryLocation ≠ some [] →
      (normalizeSessionBoxes ⟨si, st, [(k1, b1), (k2, b2)]⟩).boxes =
        [(normKey k1, ⟨(b1.items ++ b2.items).map normItem,
          b1.completed || b2.completed,
          (if b1.completed || b2.completed then
            (if b1.completedAt = none then b2.completedAt else b1.completedAt)
           else b1.completedAt),
          (if b1.secondaryLocation = none then b2.secondaryLocation
           else b1.secondaryLocation)⟩)]) ∧
    (∀ it : Item, (normItem it).id = it.id) ∧
    (∀ l1 l2 : List Item, ((l1 ++ l2).map normItem).length = l1.length + l2.length) := by
  refine ⟨fun s h => normalizeSessionBoxes_idem h, ?_, normItem_id, ?_⟩
  · intro si st k1 k2 b1 b2 hk hnk h1A h1S h2A h2S
    show normalizeItemQuantities (normalizeBoxesFold [(k1, b1), (k2, b2)]) = _
    have hstep1 : normalizeBoxesFold [(k1, b1), (k2, b2)] =
        insertNorm [(normKey k1, freshEntry (ensureBoxDataShape b1))] (normKey k2)
          (ensureBoxDataShape b2) := by
      unfold normalizeBoxesFold
      rw [List.foldl_cons, List.foldl_cons, List.foldl_nil]
      rfl
    have hstep2 : insertNorm [(normKey k1, freshEntry (ensureBoxDataShape b1))] (normKey k2)
        (ensureBoxDataShape b2) =
        [(normKey k1, mergeBoxData (freshEntry (ensureBoxDataShape b1))
          (ensureBoxDataShape b2))] := by
      unfold insertNorm
      rw [if_pos hnk]
    rw [hstep1, hstep2, ensure_eq_self h1A, ensure_eq_self h2A,
      freshEntry_eq_self ⟨h1A, h1S⟩, mergeBoxData_clean_eq h1A h1S h2S]
    rfl
  · intro l1 l2
    rw [List.length_map, List.length_append]

/-- Witness for the amended C6: idempotency at a concrete session and
the merge shape at two concrete colliding keys. -/
theorem claim_C6_amended_normalize_all_witness :
    normalizeSessionBoxes (normalizeSessionBoxes
      ⟨none, none, [(("Box42".toList), createEmptyBoxData)]⟩) =
      normalizeSessionBoxes ⟨none, none, [(("Box42".toList), createEmptyBoxData)]⟩ ∧
    (normalizeSessionBoxes ⟨none, none,
        [(("Box42".toList), ⟨[⟨1, "a".toList, 1, [], false, []⟩], false, none, none⟩),
         (("BOX042".toList), ⟨[⟨2, "b".toList, 2, [], false, []⟩], true,
           some ("T".toList), none⟩)]⟩).boxes =
      [(("BOX042".toList),
        ⟨(([⟨1, "a".toList, 1, [], false, []⟩] : List Item) ++
            ([⟨2, "b".toList, 2, [], false, []⟩] : List Item)).map normItem,
          false || true,
          (if (false || true : Bool) then
            (if (none : Option (List Char)) = none then some ("T".toList) else none)
           else none),
          (if (none : Option (List Char)) = none then none else none)⟩)] :=
  ⟨claim_C6_amended_normalize_all.1
    ⟨none, none, [(("Box42".toList), createEmptyBoxData)]⟩
    (by decide),
   claim_C6_amended_normalize_all.2.1 none none ("Box42".toList) ("BOX042".toList)
    (⟨[⟨1, "a".toList, 1, [], false, []⟩], false, none, none⟩ : BoxData)
    (⟨[⟨2, "b".toList, 2, [], false, []⟩], true, some ("T".toList), none⟩ : BoxData)
    (by decide) (by decide) (by decide) (by decide) (by decide) (by decide)⟩

end BoxAudit
